import Mathlib

/-!
Verification of the compoapp dependency-injection container (`container.go`,
package `compoapp`).  The Go code is shallowly embedded: `reflect.Type` values
become the inductive `Ty`, Go maps become association lists with insert-or-
replace semantics (Go map iteration order is unspecified; the model fixes the
deterministic insertion order, which the spec explicitly allows), producer
functions become `GoFunc` records whose runtime behaviour is the `fails` flag
(a producer with an error result that returns a non-nil error), and the panic
raised by `reflect.Type.Implements` when its argument is not an interface type
is modelled as a distinguished error value.  Instance values are tagged with an
allocation counter so that distinct producer invocations yield distinct values,
mirroring pointer identity of freshly allocated Go values.
-/

set_option maxHeartbeats 1000000

namespace Compoapp

/-- Model of `reflect.Type`: a named struct with its value-receiver and
pointer-receiver method sets, a pointer type, or an interface with its method
set.  Equality is structural, matching `reflect.Type` identity for the
distinctly named types used throughout. -/
inductive Ty where
  | strct (name : String) (valMethods ptrMethods : List String)
  | iface (name : String) (methods : List String)
  | ptr (elem : Ty)
deriving DecidableEq, Repr, Inhabited

/-- `t.Kind() == reflect.Interface`. -/
def Ty.isInterface : Ty → Bool
  | .iface _ _ => true
  | _ => false

/-- `t.Kind() == reflect.Pointer`. -/
def Ty.isPtr : Ty → Bool
  | .ptr _ => true
  | _ => false

/-- The method set of a type: a struct value has its value-receiver methods, a
pointer to a struct has both method sets, an interface has its own methods, and
any other pointer has none. -/
def methodsOf : Ty → List String
  | .strct _ v _ => v
  | .iface _ ms => ms
  | .ptr (.strct _ v p) => v ++ p
  | .ptr _ => []

/-- Error kinds surfaced by the container.  `panicNonInterface` models the Go
runtime panic of `reflect.Type.Implements` when its argument is not an
interface type — it is not a returned `error` in Go, but it is certainly not a
silent no-op either. -/
inductive Err where
  | invalidCtorShape
  | panicNonInterface (t : Ty)
  | noImpl (i : Ty)
  | multiImpl (i : Ty) (cands : List Ty)
  | missingDep (t : Ty)
  | circular (processed total : Nat)
  | noCtorRegistered (t : Ty)
  | depNotResolved (d : Ty)
  | producerFailure (t : Ty)
  | notAssignable (t : Ty)
  | noInstance (t : Ty)
deriving DecidableEq, Repr

/-- An instance value: the `reflect.Type` it was stored under plus an
allocation tag distinguishing separate producer invocations. -/
structure Val where
  ty : Ty
  tag : Nat
deriving DecidableEq, Repr

/-- Association-list lookup: Go map read. -/
def lookupA {α : Type} (m : List (Ty × α)) (k : Ty) : Option α :=
  match m with
  | [] => none
  | p :: rest => if p.1 = k then some p.2 else lookupA rest k

/-- Association-list write: Go map write (replace the existing binding for the
key, or append a fresh one). -/
def insertA {α : Type} (m : List (Ty × α)) (k : Ty) (v : α) : List (Ty × α) :=
  match m with
  | [] => [(k, v)]
  | p :: rest => if p.1 = k then (k, v) :: rest else p :: insertA rest k v

/-- `m[k] = append(m[k], v)` on a Go map of slices. -/
def appendA (m : List (Ty × List Ty)) (k : Ty) (v : Ty) : List (Ty × List Ty) :=
  match lookupA m k with
  | some old => insertA m k (old ++ [v])
  | none => insertA m k [v]

/-- A caller-supplied Go constructor function: its declared parameter types,
its declared result types, and its runtime behaviour (`fails` = the second,
error result is non-nil when invoked). -/
structure GoFunc where
  params : List Ty
  rets : List Ty
  fails : Bool
deriving DecidableEq, Repr

/-- `fnSignature`. -/
structure FnSig where
  args : List Ty
  returnType : Ty
deriving DecidableEq, Repr

/-- `constructorInfo`: the (mutable) signature, the interface-resolution marks,
and the function's behaviour.  `hasErrOut` records whether the function has a
second, error-typed result. -/
structure CtorInfo where
  args : List Ty
  ret : Ty
  hasErrOut : Bool
  needsRes : List Bool
  fails : Bool
deriving DecidableEq, Repr, Inhabited

/-- `dependencyGraph`. -/
structure Graph where
  dependencies : List (Ty × List Ty)
  dependents : List (Ty × List Ty)
deriving DecidableEq, Repr

/-- `Container`.  Go's `constructors []*constructorInfo` and
`typesCtors map[reflect.Type]*constructorInfo` alias the same heap objects, so
the model keeps a heap (`store`) of `CtorInfo` records and lets both fields
hold indices into it.  `counter`/`callLog` instrument allocation identity and
producer invocations; they affect no control flow. -/
structure Container where
  store : List CtorInfo
  constructors : List Nat
  instances : List (Ty × Val)
  typeRegistry : List Ty
  typesCtors : List (Ty × Nat)
  graph : Graph
  counter : Nat
  callLog : List (Nat × Ty)
deriving DecidableEq, Repr

/-- `NewContainer`. -/
def newContainer : Container :=
  { store := [], constructors := [], instances := [], typeRegistry := [],
    typesCtors := [], graph := ⟨[], []⟩, counter := 0, callLog := [] }

/-- Dereference a constructor-info heap index. -/
def getCtor (c : Container) (id : Nat) : CtorInfo :=
  c.store.getD id default

/-- `analyzeFunction`: accept `(*T)` or `(*T, error)`; reject zero or more than
two results, a non-pointer first result, or a non-error second result. -/
def analyzeFunction (f : GoFunc) : Except Err FnSig :=
  if f.rets.length = 0 ∨ f.rets.length > 2 then .error .invalidCtorShape
  else
    match f.rets with
    | [] => .error .invalidCtorShape
    | r1 :: rest =>
      if ¬ r1.isPtr then .error .invalidCtorShape
      else
        match rest with
        | [] => .ok ⟨f.params, r1⟩
        | r2 :: _ =>
          if (methodsOf r2).contains "Error" then .ok ⟨f.params, r1⟩
          else .error .invalidCtorShape

/-- `Provide`: analyze the signature, mark interface-kinded parameters for
resolution, append the record to `constructors`, overwrite
`typesCtors[returnType]`, and append the return type to `typeRegistry`. -/
def provide (c : Container) (f : GoFunc) : Except Err Container :=
  match analyzeFunction f with
  | .error e => .error e
  | .ok sig =>
    let needs := sig.args.map Ty.isInterface
    let info : CtorInfo :=
      { args := sig.args, ret := sig.returnType, hasErrOut := f.rets.length == 2,
        needsRes := needs, fails := f.fails }
    let id := c.store.length
    .ok { c with
      store := c.store ++ [info],
      constructors := c.constructors ++ [id],
      typesCtors := insertA c.typesCtors sig.returnType id,
      typeRegistry := c.typeRegistry ++ [sig.returnType] }

/-- `MustProvide`, for building concrete containers (the panic branch is never
taken in the scenarios below). -/
def mustProvide (c : Container) (f : GoFunc) : Container :=
  match provide c f with
  | .ok c1 => c1
  | .error _ => c

/-- `t.Implements(u)`: Go panics when `u` is not an interface type. -/
def implementsChk (t u : Ty) : Except Err Bool :=
  match u with
  | .iface _ ms => .ok (ms.all (fun m => m ∈ methodsOf t))
  | _ => .error (.panicNonInterface u)

/-- `findImplementations`: scan the type registry in order; skip
interface-kinded entries; collect a type when it, or a pointer to it,
implements the contract. -/
def findImpls (reg : List Ty) (u : Ty) : Except Err (List Ty) :=
  match reg with
  | [] => .ok []
  | t :: ts =>
    if t.isInterface then findImpls ts u
    else
      match implementsChk t u with
      | .error e => .error e
      | .ok true =>
        match findImpls ts u with
        | .error e => .error e
        | .ok r => .ok (t :: r)
      | .ok false =>
        match implementsChk (.ptr t) u with
        | .error e => .error e
        | .ok true =>
          match findImpls ts u with
          | .error e => .error e
          | .ok r => .ok (t :: r)
        | .ok false => findImpls ts u

/-- The inner loop of `resolveInterfaces` for one constructor: walk the
`dependNeedsResolution` marks positionally; for a marked slot read the current
argument type, search implementations, and fail on zero or several candidates
or substitute the unique one in place.  Substitutions made before a failure
persist (Go mutates the signature in place). -/
def resolveSlots (reg : List Ty) : List Bool → Nat → CtorInfo → CtorInfo × Except Err Unit
  | [], _, info => (info, .ok ())
  | b :: bs, i, info =>
    if b then
      match findImpls reg (info.args.getD i default) with
      | .error e => (info, .error e)
      | .ok [] => (info, .error (.noImpl (info.args.getD i default)))
      | .ok [u] => resolveSlots reg bs (i + 1) { info with args := info.args.set i u }
      | .ok us => (info, .error (.multiImpl (info.args.getD i default) us))
    else resolveSlots reg bs (i + 1) info

/-- The outer loop of `resolveInterfaces` over the `constructors` list;
mutations performed before a failure persist in the heap. -/
def resolveInterfacesGo (reg : List Ty) : List Nat → List CtorInfo → List CtorInfo × Except Err Unit
  | [], store => (store, .ok ())
  | id :: ids, store =>
    let info := store.getD id default
    let pr := resolveSlots reg info.needsRes 0 info
    let store1 := store.set id pr.1
    match pr.2 with
    | .error e => (store1, .error e)
    | .ok _ => resolveInterfacesGo reg ids store1

/-- `resolveInterfaces`. -/
def resolveInterfaces (c : Container) : Container × Except Err Unit :=
  let pr := resolveInterfacesGo c.typeRegistry c.constructors c.store
  ({ c with store := pr.1 }, pr.2)

/-- `rebuildGraph`: clear and rebuild `dependencies`/`dependents` from the
post-resolution signatures keyed by `typesCtors`. -/
def rebuildGraph (c : Container) : Container :=
  let deps := c.typesCtors.map (fun p => (p.1, (getCtor c p.2).args))
  let depd := c.typesCtors.foldl
    (fun m p => (getCtor c p.2).args.foldl (fun m2 d => appendA m2 d p.1) m) []
  { c with graph := ⟨deps, depd⟩ }

/-- The dependency list recorded for a type (empty when absent). -/
def depsOf (g : Graph) (t : Ty) : List Ty :=
  (lookupA g.dependencies t).getD []

/-- The dependents recorded for a type (empty when absent). -/
def depdOf (g : Graph) (t : Ty) : List Ty :=
  (lookupA g.dependents t).getD []

/-- The set (first-occurrence order) of types required by any registered
constructor signature — `validateDependencies`'s `requiredTypes`. -/
def requiredTypes (c : Container) : List Ty :=
  c.constructors.foldl
    (fun acc id => (getCtor c id).args.foldl (fun a d => if d ∈ a then a else a ++ [d]) acc) []

/-- `validateDependencies`: every required type must have a constructor. -/
def validateDependencies (c : Container) : Except Err Unit :=
  match (requiredTypes c).find? (fun d => (lookupA c.typesCtors d).isNone) with
  | some d => .error (.missingDep d)
  | none => .ok ()

/-- Go map read with the zero-value default: `inDegree[t]`. -/
def degAt (m : List (Ty × Int)) (t : Ty) : Int :=
  (lookupA m t).getD 0

/-- Processing the dependents of a popped node: decrement each one in order
(`inDegree[dependent]--`) and enqueue those whose degree reaches exactly 0. -/
def procDeps : List Ty → List (Ty × Int) → List Ty → List (Ty × Int) × List Ty
  | [], m, acc => (m, acc)
  | d :: ds, m, acc =>
    let v := degAt m d - 1
    procDeps ds (insertA m d v) (if v = 0 then acc ++ [d] else acc)

/-- The Kahn work loop.  The fuel argument only serves Lean's termination
checker; it starts strictly above the number of in-degree keys, which bounds
the number of iterations (each iteration pops a queue entry and, as proved
below, the result stays duplicate-free inside the key set). -/
def kahnLoop (g : Graph) : Nat → List (Ty × Int) → List Ty → List Ty → List Ty
  | 0, _, _, result => result
  | _ + 1, _, [], result => result
  | fuel + 1, inDeg, cur :: rest, result =>
    let pr := procDeps (depdOf g cur) inDeg []
    kahnLoop g fuel pr.1 (rest ++ pr.2) (result ++ [cur])

/-- The in-degree map: zero for every registry entry, then the dependency-list
length for every node of the rebuilt graph. -/
def buildInDeg (c : Container) : List (Ty × Int) :=
  let m1 := c.typeRegistry.foldl (fun m t => insertA m t (0 : Int)) []
  c.graph.dependencies.foldl (fun m p => insertA m p.1 (p.2.length : Int)) m1

/-- `topologicalSort`: Kahn's algorithm; a result shorter than the number of
types with constructors signals a circular dependency. -/
def topologicalSort (c : Container) : Except Err (List Ty) :=
  let inDeg0 := buildInDeg c
  let queue0 := (inDeg0.filter (fun p => p.2 = 0)).map Prod.fst
  let result := kahnLoop c.graph (inDeg0.length + 1) inDeg0 queue0 []
  let twc := c.typesCtors.length
  if result.length ≠ twc then .error (.circular result.length twc) else .ok result

/-- Gather a constructor's arguments from the instance cache; the first
missing dependency aborts. -/
def gatherArgs (inst : List (Ty × Val)) : List Ty → Except Err (List Val)
  | [] => .ok []
  | d :: ds =>
    match lookupA inst d with
    | none => .error (.depNotResolved d)
    | some v =>
      match gatherArgs inst ds with
      | .error e => .error e
      | .ok vs => .ok (v :: vs)

/-- `resolveInstance`: look up the constructor for the type, gather its
(post-resolution) argument instances, invoke it (recorded in `callLog`), and
either propagate its non-nil error result or store the freshly produced value
under the type.  There is no check against the instance cache before
invoking. -/
def resolveInstance (c : Container) (t : Ty) : Container × Except Err Unit :=
  match lookupA c.typesCtors t with
  | none => (c, .error (.noCtorRegistered t))
  | some id =>
    let info := getCtor c id
    match gatherArgs c.instances info.args with
    | .error e => (c, .error e)
    | .ok _ =>
      let c1 := { c with callLog := c.callLog ++ [(id, t)] }
      if info.hasErrOut && info.fails then (c1, .error (.producerFailure t))
      else
        ({ c1 with instances := insertA c1.instances t ⟨t, c1.counter⟩,
                   counter := c1.counter + 1 }, .ok ())

/-- Step 3 of `Resolve`: resolve every sorted type in order, aborting on the
first failure. -/
def resolveList (c : Container) : List Ty → Container × Except Err Unit
  | [] => (c, .ok ())
  | t :: ts =>
    match resolveInstance c t with
    | (c1, .ok _) => resolveList c1 ts
    | (c1, .error e) => (c1, .error e)

/-- `Resolve` for a valid target (the nil-pointer check on the caller's
argument is outside the model): interface resolution, graph rebuild,
validation, topological sort, instantiation of every sorted type, extraction
of the requested instance.  Go wraps some failures with context strings via
`fmt.Errorf("...: %w", err)`; the model keeps the wrapped error kind. -/
def resolve (c : Container) (targetType : Ty) : Container × Except Err Val :=
  let pr := resolveInterfaces c
  match pr.2 with
  | .error e => (pr.1, .error e)
  | .ok _ =>
    let c2 := rebuildGraph pr.1
    match validateDependencies c2 with
    | .error e => (c2, .error e)
    | .ok _ =>
      match topologicalSort c2 with
      | .error e => (c2, .error e)
      | .ok sorted =>
        let pr3 := resolveList c2 sorted
        match pr3.2 with
        | .error e => (pr3.1, .error e)
        | .ok _ =>
          match lookupA pr3.1.instances targetType with
          | some v =>
            if v.ty = targetType then (pr3.1, .ok v)
            else (pr3.1, .error (.notAssignable targetType))
          | none => (pr3.1, .error (.noInstance targetType))

/-- Container well-formedness, established by `newContainer` and preserved by
`provide`: `typesCtors` keys are duplicate-free, the registry and the
`typesCtors` key set coincide as sets, and cached instance tags are below the
allocation counter. -/
def WF (c : Container) : Prop :=
  (c.typesCtors.map Prod.fst).Nodup
  ∧ (∀ t ∈ c.typeRegistry, t ∈ c.typesCtors.map Prod.fst)
  ∧ (∀ p ∈ c.typesCtors, p.1 ∈ c.typeRegistry)
  ∧ (∀ p ∈ c.instances, p.2.tag < c.counter)

instance (c : Container) : Decidable (WF c) :=
  inferInstanceAs (Decidable ((c.typesCtors.map Prod.fst).Nodup
    ∧ (∀ t ∈ c.typeRegistry, t ∈ c.typesCtors.map Prod.fst)
    ∧ (∀ p ∈ c.typesCtors, p.1 ∈ c.typeRegistry)
    ∧ (∀ p ∈ c.instances, p.2.tag < c.counter)))

/-- Equality of `Except` results is decidable (kernel-reducible, so concrete
scenarios can be settled by `decide`). -/
def exceptDecEq {E A : Type} [DecidableEq E] [DecidableEq A] :
    (a b : Except E A) → Decidable (a = b)
  | .error e1, .error e2 =>
    if h : e1 = e2 then .isTrue (congrArg Except.error h)
    else .isFalse (fun he => h (Except.error.inj he))
  | .error _, .ok _ => .isFalse (fun he => Except.noConfusion he)
  | .ok _, .error _ => .isFalse (fun he => Except.noConfusion he)
  | .ok a1, .ok a2 =>
    if h : a1 = a2 then .isTrue (congrArg Except.ok h)
    else .isFalse (fun he => h (Except.ok.inj he))

instance {E A : Type} [DecidableEq E] [DecidableEq A] : DecidableEq (Except E A) :=
  exceptDecEq

/-! ### Association-list and counting lemmas -/

/-- Occurrences of an element in a list (avoiding `BEq` friction). -/
def cnt (x : Ty) (l : List Ty) : Nat :=
  (l.filter (fun y => y = x)).length

theorem cnt_nil (x : Ty) : cnt x [] = 0 := rfl

theorem cnt_cons (x a : Ty) (l : List Ty) :
    cnt x (a :: l) = (if a = x then 1 else 0) + cnt x l := by
  by_cases h : a = x
  · simp [cnt, List.filter, h]
    omega
  · simp [cnt, List.filter, h]

theorem cnt_pos_iff_mem (x : Ty) (l : List Ty) : 0 < cnt x l ↔ x ∈ l := by
  induction l with
  | nil => simp [cnt]
  | cons a l ih =>
    rw [cnt_cons, List.mem_cons]
    by_cases h : a = x
    · subst h; simp
    · have hx : ¬ x = a := fun he => h he.symm
      simp [h, hx, ← ih]

theorem cnt_eq_zero_of_not_mem {x : Ty} {l : List Ty} (h : x ∉ l) : cnt x l = 0 := by
  by_contra hne
  exact h ((cnt_pos_iff_mem x l).1 (Nat.pos_of_ne_zero hne))

theorem lookupA_insert_self {α : Type} (m : List (Ty × α)) (k : Ty) (v : α) :
    lookupA (insertA m k v) k = some v := by
  induction m with
  | nil => simp [insertA, lookupA]
  | cons p rest ih =>
    by_cases h : p.1 = k <;> simp [insertA, lookupA, h, ih]

theorem lookupA_insert_ne {α : Type} (m : List (Ty × α)) (k j : Ty) (v : α) (h : k ≠ j) :
    lookupA (insertA m k v) j = lookupA m j := by
  induction m with
  | nil => simp [insertA, lookupA, h]
  | cons p rest ih =>
    by_cases hp : p.1 = k
    · have hpj : ¬ p.1 = j := by rw [hp]; exact h
      simp [insertA, lookupA, hp, h, hpj]
    · simp [insertA, lookupA, hp, ih]

theorem mem_keys_insertA {α : Type} (m : List (Ty × α)) (k j : Ty) (v : α) :
    j ∈ (insertA m k v).map Prod.fst ↔ j = k ∨ j ∈ m.map Prod.fst := by
  induction m with
  | nil => simp [insertA]
  | cons p rest ih =>
    by_cases h : p.1 = k
    · subst h
      simp [insertA]
    · simp [insertA, h, ih]
      tauto

theorem nodup_keys_insertA {α : Type} (m : List (Ty × α)) (k : Ty) (v : α)
    (h : (m.map Prod.fst).Nodup) : ((insertA m k v).map Prod.fst).Nodup := by
  induction m with
  | nil => simp [insertA]
  | cons p rest ih =>
    by_cases hp : p.1 = k
    · subst hp; simpa [insertA] using h
    · simp only [List.map_cons, List.nodup_cons] at h
      have hmem : p.1 ∉ (insertA rest k v).map Prod.fst := by
        rw [mem_keys_insertA]
        rintro (rfl | hm)
        · exact hp rfl
        · exact h.1 hm
      simp [insertA, hp, List.nodup_cons, hmem, ih h.2]

theorem lookupA_eq_none_iff {α : Type} (m : List (Ty × α)) (k : Ty) :
    lookupA m k = none ↔ k ∉ m.map Prod.fst := by
  induction m with
  | nil => simp [lookupA]
  | cons p rest ih =>
    by_cases h : p.1 = k
    · simp [lookupA, h]
    · have hk : ¬ k = p.1 := fun he => h he.symm
      simp [lookupA, h, ih, hk]

theorem lookupA_isSome_iff {α : Type} (m : List (Ty × α)) (k : Ty) :
    (lookupA m k).isSome = true ↔ k ∈ m.map Prod.fst := by
  rcases h : lookupA m k with _ | v
  · simp [(lookupA_eq_none_iff m k).1 h]
  · simp
    have : lookupA m k ≠ none := by simp [h]
    rw [Ne, lookupA_eq_none_iff] at this
    simpa using this

theorem lookupA_of_mem_nodup {α : Type} {m : List (Ty × α)} {p : Ty × α}
    (hmem : p ∈ m) (hnd : (m.map Prod.fst).Nodup) : lookupA m p.1 = some p.2 := by
  induction m with
  | nil => simp at hmem
  | cons q rest ih =>
    simp only [List.map_cons, List.nodup_cons] at hnd
    rcases List.mem_cons.1 hmem with rfl | hm
    · simp [lookupA]
    · have hne : q.1 ≠ p.1 := by
        intro he
        exact hnd.1 (he ▸ List.mem_map_of_mem Prod.fst hm)
      simp [lookupA, hne, ih hm hnd.2]

theorem cnt_append (x : Ty) (l1 l2 : List Ty) :
    cnt x (l1 ++ l2) = cnt x l1 + cnt x l2 := by
  simp [cnt, List.filter_append]

theorem cnt_le_one_of_nodup {x : Ty} {l : List Ty} (h : l.Nodup) : cnt x l ≤ 1 := by
  induction l with
  | nil => simp [cnt]
  | cons a l ih =>
    simp only [List.nodup_cons] at h
    rw [cnt_cons]
    by_cases ha : a = x
    · subst ha
      have : cnt a l = 0 := cnt_eq_zero_of_not_mem h.1
      simp [this]
    · simpa [ha] using ih h.2

theorem cnt_eq_one_of_nodup_mem {x : Ty} {l : List Ty} (h : l.Nodup) (hm : x ∈ l) :
    cnt x l = 1 := by
  have h1 := cnt_le_one_of_nodup (x := x) h
  have h2 := (cnt_pos_iff_mem x l).2 hm
  omega

theorem filter_cons_mem_length (L : List Ty) (r : Ty) (R : List Ty) (hr : r ∉ R) :
    (L.filter (fun d => decide (d ∈ r :: R))).length
      = cnt r L + (L.filter (fun d => decide (d ∈ R))).length := by
  induction L with
  | nil => simp [cnt]
  | cons a L ih =>
    rw [cnt_cons]
    simp only [List.filter_cons]
    by_cases har : a = r
    · subst har
      rw [if_pos (show decide (a ∈ a :: R) = true by simp),
          if_neg (show ¬ decide (a ∈ R) = true by simp [hr]),
          List.length_cons, ih]
      simp
      omega
    · by_cases haR : a ∈ R
      · rw [if_pos (show decide (a ∈ r :: R) = true by simp [haR]),
            if_pos (show decide (a ∈ R) = true by simp [haR]),
            List.length_cons, List.length_cons, ih]
        simp [har]
        omega
      · rw [if_neg (show ¬ decide (a ∈ r :: R) = true by simp [har, haR]),
            if_neg (show ¬ decide (a ∈ R) = true by simp [haR]),
            ih]
        simp [har]

theorem sum_cnt_eq_filter_length (L R : List Ty) (h : R.Nodup) :
    (R.map (fun s => cnt s L)).sum = (L.filter (fun d => decide (d ∈ R))).length := by
  induction R with
  | nil => simp
  | cons r R ih =>
    simp only [List.nodup_cons] at h
    rw [List.map_cons, List.sum_cons, ih h.2, filter_cons_mem_length L r R h.1]

theorem filter_length_all (p : Ty → Bool) (L : List Ty)
    (h : L.length ≤ (L.filter p).length) : ∀ d ∈ L, p d = true := by
  induction L with
  | nil => simp
  | cons a L ih =>
    have hle := List.length_filter_le p L
    by_cases hp : p a
    · simp only [List.filter, hp] at h
      simp only [List.length_cons] at h
      intro d hd
      rcases List.mem_cons.1 hd with rfl | hd
      · exact hp
      · exact ih (by omega) d hd
    · simp only [List.filter, hp] at h
      simp only [List.length_cons] at h
      omega

theorem lookupA_mem {α : Type} {m : List (Ty × α)} {k : Ty} {v : α}
    (h : lookupA m k = some v) : (k, v) ∈ m := by
  induction m with
  | nil => simp [lookupA] at h
  | cons p rest ih =>
    rcases p with ⟨a, b⟩
    by_cases hp : a = k
    · subst hp
      simp [lookupA] at h
      subst h
      exact List.mem_cons_self _ _
    · simp [lookupA, hp] at h
      exact List.mem_cons_of_mem _ (ih h)

theorem degAt_insert_self (m : List (Ty × Int)) (k : Ty) (v : Int) :
    degAt (insertA m k v) k = v := by
  simp [degAt, lookupA_insert_self]

theorem degAt_insert_ne (m : List (Ty × Int)) (k j : Ty) (v : Int) (h : k ≠ j) :
    degAt (insertA m k v) j = degAt m j := by
  simp [degAt, lookupA_insert_ne m k j v h]

theorem degAt_pos_mem (m : List (Ty × Int)) (t : Ty) (h : 0 < degAt m t) :
    t ∈ m.map Prod.fst := by
  by_contra hmem
  have := (lookupA_eq_none_iff m t).2 hmem
  simp [degAt, this] at h

/-! ### Properties of the per-pop dependent processing -/

theorem procDeps_deg (ds : List Ty) (m : List (Ty × Int)) (acc : List Ty) (t : Ty) :
    degAt (procDeps ds m acc).1 t = degAt m t - cnt t ds := by
  induction ds generalizing m acc with
  | nil => simp [procDeps, cnt]
  | cons d ds ih =>
    simp only [procDeps]
    rw [ih, cnt_cons]
    by_cases h : d = t
    · subst h
      rw [if_pos rfl, degAt_insert_self]
      push_cast
      ring
    · rw [if_neg h, degAt_insert_ne _ _ _ _ h]
      simp

theorem procDeps_acc (ds : List Ty) (m : List (Ty × Int)) (acc : List Ty) :
    (procDeps ds m acc).2 = acc ++ (procDeps ds m []).2 := by
  induction ds generalizing m acc with
  | nil => simp [procDeps]
  | cons d ds ih =>
    simp only [procDeps]
    by_cases hv : degAt m d - 1 = 0
    · rw [if_pos hv, if_pos hv]
      simp only [List.nil_append]
      rw [ih, ih (insertA m d (degAt m d - 1)) [d]]
      simp
    · rw [if_neg hv, if_neg hv, ih]

theorem procDeps_mem (ds : List Ty) (m : List (Ty × Int)) (t : Ty) :
    t ∈ (procDeps ds m []).2 ↔ 1 ≤ degAt m t ∧ degAt m t ≤ (cnt t ds : Int) := by
  induction ds generalizing m with
  | nil =>
    rw [show cnt t [] = 0 from rfl]
    simp [procDeps]
    omega
  | cons d ds ih =>
    simp only [procDeps]
    rw [procDeps_acc, cnt_cons]
    by_cases hv : degAt m d - 1 = 0
    · rw [if_pos hv]
      simp only [List.nil_append, List.singleton_append, List.mem_cons]
      rw [ih]
      by_cases htd : d = t
      · subst htd
        rw [if_pos rfl, degAt_insert_self]
        simp only [eq_self_iff_true, true_or, true_iff]
        push_cast
        omega
      · have htd2 : ¬ t = d := fun h => htd h.symm
        rw [if_neg htd, degAt_insert_ne _ _ _ _ htd]
        simp only [htd2, false_or]
        push_cast
        omega
    · rw [if_neg hv]
      simp only [List.nil_append]
      rw [ih]
      by_cases htd : d = t
      · subst htd
        rw [if_pos rfl, degAt_insert_self]
        push_cast
        omega
      · rw [if_neg htd, degAt_insert_ne _ _ _ _ htd]
        push_cast
        omega

theorem procDeps_nodup (ds : List Ty) (m : List (Ty × Int)) :
    (procDeps ds m []).2.Nodup := by
  induction ds generalizing m with
  | nil => simp [procDeps]
  | cons d ds ih =>
    simp only [procDeps]
    rw [procDeps_acc]
    by_cases hv : degAt m d - 1 = 0
    · rw [if_pos hv]
      simp only [List.nil_append, List.singleton_append, List.nodup_cons]
      refine ⟨fun hmem => ?_, ih _⟩
      have := (procDeps_mem ds (insertA m d (degAt m d - 1)) d).1 hmem
      rw [degAt_insert_self] at this
      omega
    · rw [if_neg hv]
      simpa using ih _

/-! ### Kahn loop invariant -/

/-- Total number of decrements applied to `t` after popping the nodes of `r`
(in order, with multiplicity). -/
def countDecr (g : Graph) (t : Ty) (r : List Ty) : Nat :=
  (r.map (fun s => cnt t (depdOf g s))).sum

theorem countDecr_nil (g : Graph) (t : Ty) : countDecr g t [] = 0 := rfl

theorem countDecr_append (g : Graph) (t : Ty) (r1 r2 : List Ty) :
    countDecr g t (r1 ++ r2) = countDecr g t r1 + countDecr g t r2 := by
  simp [countDecr]

theorem countDecr_singleton (g : Graph) (t s : Ty) :
    countDecr g t [s] = cnt t (depdOf g s) := by
  simp [countDecr]

/-- Facts about the graph and initial in-degree map entering the Kahn loop:
the dependents map is the exact multiset inverse of the dependencies map, and
the initial in-degree of every node is its dependency count. -/
structure GraphOK (g : Graph) (inDeg0 : List (Ty × Int)) : Prop where
  inv : ∀ s t, cnt t (depdOf g s) = cnt s (depsOf g t)
  init : ∀ t, degAt inDeg0 t = ((depsOf g t).length : Int)

/-- The Kahn loop invariant over the state (in-degree map, queue, result). -/
structure KInv (g : Graph) (inDeg0 m : List (Ty × Int)) (q r : List Ty) : Prop where
  nd : (r ++ q).Nodup
  deg : ∀ t, degAt m t = degAt inDeg0 t - (countDecr g t r : Int)
  nonpos : ∀ t ∈ r ++ q, degAt m t ≤ 0
  respq : ∀ t ∈ q, ∀ d ∈ depsOf g t, d ∈ r
  respr : ∀ i, i < r.length → ∀ d ∈ depsOf g (r.getD i default), d ∈ r.take i
  sub : ∀ t ∈ r ++ q, t ∈ inDeg0.map Prod.fst

theorem getD_append_left {α : Type} [Inhabited α] (r s : List α) (i : Nat)
    (h : i < r.length) : (r ++ s).getD i default = r.getD i default := by
  induction r generalizing i with
  | nil => simp at h
  | cons a r ih =>
    cases i with
    | zero => simp [List.getD]
    | succ i =>
      simp only [List.length_cons] at h
      simpa [List.getD] using ih i (by omega)

theorem getD_append_self {α : Type} [Inhabited α] (r : List α) (x : α) :
    (r ++ [x]).getD r.length default = x := by
  induction r with
  | nil => simp [List.getD]
  | cons a r ih =>
    simp only [List.cons_append, List.getD, List.length_cons]
    exact ih

theorem take_append_left {α : Type} (r s : List α) (i : Nat) (h : i ≤ r.length) :
    (r ++ s).take i = r.take i := by
  induction r generalizing i with
  | nil =>
    simp at h
    simp [h]
  | cons a r ih =>
    cases i with
    | zero => simp
    | succ i =>
      simp only [List.length_cons] at h
      simp [List.take, ih i (by omega)]

/-- One iteration of the Kahn loop preserves the invariant. -/
theorem kinv_step (g : Graph) (inDeg0 m : List (Ty × Int)) (cur : Ty) (rest r : List Ty)
    (hG : GraphOK g inDeg0) (h : KInv g inDeg0 m (cur :: rest) r) :
    KInv g inDeg0 (procDeps (depdOf g cur) m []).1
      (rest ++ (procDeps (depdOf g cur) m []).2) (r ++ [cur]) := by
  set newly := (procDeps (depdOf g cur) m []).2 with hnewly
  have hdeg1 : ∀ t, degAt (procDeps (depdOf g cur) m []).1 t
      = degAt m t - (cnt t (depdOf g cur) : Int) := fun t => procDeps_deg _ _ _ _
  have hdeg2 : ∀ t, degAt (procDeps (depdOf g cur) m []).1 t
      = degAt inDeg0 t - (countDecr g t (r ++ [cur]) : Int) := by
    intro t
    rw [hdeg1, h.deg, countDecr_append, countDecr_singleton]
    push_cast
    ring
  have hmemnew : ∀ t, t ∈ newly ↔ 1 ≤ degAt m t ∧ degAt m t ≤ (cnt t (depdOf g cur) : Int) :=
    fun t => procDeps_mem _ _ _
  have hndnew : newly.Nodup := procDeps_nodup _ _
  have hdisj : ∀ t ∈ r ++ cur :: rest, t ∉ newly := by
    intro t ht hmem
    have h1 := (hmemnew t).1 hmem
    have h2 := h.nonpos t ht
    omega
  have hshuffle : (r ++ [cur]) ++ (rest ++ newly) = (r ++ cur :: rest) ++ newly := by
    simp
  have hndr1 : (r ++ [cur]).Nodup := by
    have hsub : (r ++ [cur]).Sublist (r ++ cur :: rest) := by
      apply List.Sublist.append_left
      have : ([cur] : List Ty).Sublist (cur :: rest) :=
        (List.nil_sublist rest).cons₂ cur
      exact this
    exact h.nd.sublist hsub
  refine ⟨?_, hdeg2, ?_, ?_, ?_, ?_⟩
  · rw [hshuffle]
    exact h.nd.append hndnew (fun t ht => hdisj t ht)
  · intro t ht
    rw [hdeg1]
    have : t ∈ (r ++ cur :: rest) ++ newly := by rw [← hshuffle]; simpa using ht
    rcases List.mem_append.1 this with hold | hnew
    · have := h.nonpos t hold
      omega
    · have := (hmemnew t).1 hnew
      omega
  · intro t ht d hd
    rcases List.mem_append.1 ht with hrest | hnew
    · exact List.mem_append.2 (Or.inl (h.respq t (List.mem_cons_of_mem cur hrest) d hd))
    · -- counting argument: the degree of `t` dropped to zero, so every
      -- dependency of `t` has already been popped.
      have hle : ((depsOf g t).length : Int) ≤ (countDecr g t (r ++ [cur]) : Int) := by
        have h1 := (hmemnew t).1 hnew
        have h2 := hdeg2 t
        have h3 := hdeg1 t
        have h4 := hG.init t
        omega
      have hcd : countDecr g t (r ++ [cur])
          = ((depsOf g t).filter (fun d => decide (d ∈ r ++ [cur]))).length := by
        unfold countDecr
        rw [show ((r ++ [cur]).map fun s => cnt t (depdOf g s))
              = ((r ++ [cur]).map fun s => cnt s (depsOf g t)) from
            List.map_congr_left (fun s _ => hG.inv s t)]
        exact sum_cnt_eq_filter_length _ _ hndr1
      have hfl : (depsOf g t).length
          ≤ ((depsOf g t).filter (fun d => decide (d ∈ r ++ [cur]))).length := by
        omega
      have := filter_length_all _ _ hfl d hd
      simpa using this
  · intro i hi d hd
    rcases Nat.lt_or_ge i r.length with hir | hir
    · rw [getD_append_left r [cur] i hir] at hd
      rw [take_append_left r [cur] i (le_of_lt hir)]
      exact h.respr i hir d hd
    · have hieq : i = r.length := by
        simp only [List.length_append, List.length_cons, List.length_nil] at hi
        omega
      subst hieq
      rw [getD_append_self] at hd
      rw [take_append_left r [cur] r.length (le_refl _), List.take_length]
      exact h.respq cur (List.mem_cons_self cur rest) d hd
  · intro t ht
    have : t ∈ (r ++ cur :: rest) ++ newly := by rw [← hshuffle]; simpa using ht
    rcases List.mem_append.1 this with hold | hnew
    · exact h.sub t hold
    · have h1 := (hmemnew t).1 hnew
      have h2 := h.deg t
      apply degAt_pos_mem
      omega

/-- The Kahn loop's output is duplicate-free, stays inside the initial
in-degree key set, and respects every dependency edge. -/
theorem kahnLoop_out (g : Graph) (inDeg0 : List (Ty × Int)) (hG : GraphOK g inDeg0) :
    ∀ (fuel : Nat) (m : List (Ty × Int)) (q r : List Ty),
      KInv g inDeg0 m q r →
      (kahnLoop g fuel m q r).Nodup
      ∧ (∀ t ∈ kahnLoop g fuel m q r, t ∈ inDeg0.map Prod.fst)
      ∧ (∀ i, i < (kahnLoop g fuel m q r).length →
          ∀ d ∈ depsOf g ((kahnLoop g fuel m q r).getD i default),
            d ∈ (kahnLoop g fuel m q r).take i) := by
  intro fuel
  induction fuel with
  | zero =>
    intro m q r h
    refine ⟨?_, ?_, ?_⟩
    · exact h.nd.sublist (List.sublist_append_left r q)
    · exact fun t ht => h.sub t (List.mem_append.2 (Or.inl ht))
    · exact h.respr
  | succ fuel ih =>
    intro m q r h
    cases q with
    | nil =>
      refine ⟨?_, ?_, ?_⟩
      · exact h.nd.sublist (List.sublist_append_left r [])
      · exact fun t ht => h.sub t (List.mem_append.2 (Or.inl ht))
      · exact h.respr
    | cons cur rest =>
      exact ih _ _ _ (kinv_step g inDeg0 m cur rest r hG h)

/-! ### The in-degree map construction -/

theorem degAt_fold_zero (l : List Ty) (m : List (Ty × Int)) (h : ∀ t, degAt m t = 0)
    (t : Ty) : degAt (l.foldl (fun m x => insertA m x (0 : Int)) m) t = 0 := by
  induction l generalizing m with
  | nil => exact h t
  | cons a l ih =>
    simp only [List.foldl_cons]
    apply ih
    intro s
    by_cases hs : a = s
    · subst hs
      exact degAt_insert_self m a 0
    · rw [degAt_insert_ne _ _ _ _ hs]
      exact h s

theorem degAt_fold_deps_not_mem (deps : List (Ty × List Ty)) (m : List (Ty × Int)) (t : Ty)
    (h : t ∉ deps.map Prod.fst) :
    degAt (deps.foldl (fun m p => insertA m p.1 ((p.2.length : Int))) m) t = degAt m t := by
  induction deps generalizing m with
  | nil => rfl
  | cons p rest ih =>
    simp only [List.map_cons, List.mem_cons, not_or] at h
    simp only [List.foldl_cons]
    rw [ih _ h.2, degAt_insert_ne _ _ _ _ (fun he => h.1 he.symm)]

theorem degAt_fold_deps (deps : List (Ty × List Ty)) (m : List (Ty × Int))
    (hnd : (deps.map Prod.fst).Nodup) (t : Ty) :
    degAt (deps.foldl (fun m p => insertA m p.1 ((p.2.length : Int))) m) t
      = match lookupA deps t with
        | some ds => (ds.length : Int)
        | none => degAt m t := by
  induction deps generalizing m with
  | nil => simp [lookupA]
  | cons p rest ih =>
    simp only [List.map_cons, List.nodup_cons] at hnd
    simp only [List.foldl_cons]
    by_cases hp : p.1 = t
    · subst hp
      rw [degAt_fold_deps_not_mem rest _ p.1 hnd.1, degAt_insert_self]
      simp [lookupA]
    · rw [ih _ hnd.2]
      have hlk : lookupA (p :: rest) t = lookupA rest t := by simp [lookupA, hp]
      rw [hlk]
      cases hr : lookupA rest t with
      | some ds => simp
      | none => exact degAt_insert_ne m p.1 t _ hp

theorem mem_keys_fold_zero (l : List Ty) (m : List (Ty × Int)) (t : Ty) :
    t ∈ (l.foldl (fun m x => insertA m x (0 : Int)) m).map Prod.fst
      ↔ t ∈ l ∨ t ∈ m.map Prod.fst := by
  induction l generalizing m with
  | nil => simp
  | cons a l ih =>
    simp only [List.foldl_cons, List.mem_cons]
    rw [ih, mem_keys_insertA]
    tauto

theorem mem_keys_fold_deps (deps : List (Ty × List Ty)) (m : List (Ty × Int)) (t : Ty) :
    t ∈ (deps.foldl (fun m p => insertA m p.1 ((p.2.length : Int))) m).map Prod.fst
      ↔ t ∈ deps.map Prod.fst ∨ t ∈ m.map Prod.fst := by
  induction deps generalizing m with
  | nil => simp
  | cons p rest ih =>
    simp only [List.foldl_cons, List.map_cons, List.mem_cons]
    rw [ih, mem_keys_insertA]
    tauto

theorem nodup_keys_fold_zero (l : List Ty) (m : List (Ty × Int))
    (h : (m.map Prod.fst).Nodup) :
    ((l.foldl (fun m x => insertA m x (0 : Int)) m).map Prod.fst).Nodup := by
  induction l generalizing m with
  | nil => exact h
  | cons a l ih => exact ih _ (nodup_keys_insertA _ _ _ h)

theorem nodup_keys_fold_deps (deps : List (Ty × List Ty)) (m : List (Ty × Int))
    (h : (m.map Prod.fst).Nodup) :
    ((deps.foldl (fun m p => insertA m p.1 ((p.2.length : Int))) m).map Prod.fst).Nodup := by
  induction deps generalizing m with
  | nil => exact h
  | cons p rest ih => exact ih _ (nodup_keys_insertA _ _ _ h)

theorem buildInDeg_keys_nodup (c : Container) : ((buildInDeg c).map Prod.fst).Nodup := by
  unfold buildInDeg
  exact nodup_keys_fold_deps _ _ (nodup_keys_fold_zero _ [] (by simp))

theorem mem_buildInDeg_keys (c : Container) (t : Ty) :
    t ∈ (buildInDeg c).map Prod.fst
      ↔ t ∈ c.typeRegistry ∨ t ∈ c.graph.dependencies.map Prod.fst := by
  unfold buildInDeg
  rw [mem_keys_fold_deps, mem_keys_fold_zero]
  simp
  tauto

theorem degAt_buildInDeg (c : Container)
    (hnd : (c.graph.dependencies.map Prod.fst).Nodup) (t : Ty) :
    degAt (buildInDeg c) t = ((depsOf c.graph t).length : Int) := by
  unfold buildInDeg depsOf
  rw [degAt_fold_deps _ _ hnd]
  cases h : lookupA c.graph.dependencies t with
  | some ds => simp
  | none => simp [degAt_fold_zero _ [] (fun t => rfl)]

/-- The invariant holds for the seeded initial state. -/
theorem kinv_init (g : Graph) (inDeg0 : List (Ty × Int)) (hG : GraphOK g inDeg0)
    (hnd : (inDeg0.map Prod.fst).Nodup) :
    KInv g inDeg0 inDeg0 ((inDeg0.filter (fun p => p.2 = 0)).map Prod.fst) [] := by
  have hqz : ∀ t ∈ (inDeg0.filter (fun p => p.2 = 0)).map Prod.fst, degAt inDeg0 t = 0 := by
    intro t ht
    rcases List.mem_map.1 ht with ⟨p, hp, rfl⟩
    have hpm := List.mem_of_mem_filter hp
    have hp2 : p.2 = 0 := by simpa using List.of_mem_filter hp
    rw [degAt, lookupA_of_mem_nodup hpm hnd, hp2]
    rfl
  refine ⟨?_, ?_, ?_, ?_, ?_, ?_⟩
  · simp only [List.nil_append]
    exact hnd.sublist ((List.filter_sublist _).map Prod.fst)
  · intro t
    simp [countDecr]
  · intro t ht
    simp only [List.nil_append] at ht
    exact le_of_eq (hqz t ht)
  · intro t ht d hd
    have h0 := hqz t ht
    rw [hG.init t] at h0
    have hlen : (depsOf g t).length = 0 := by exact_mod_cast h0
    rw [List.length_eq_zero] at hlen
    rw [hlen] at hd
    simp at hd
  · intro i hi
    simp at hi
  · intro t ht
    simp only [List.nil_append] at ht
    rcases List.mem_map.1 ht with ⟨p, hp, rfl⟩
    exact List.mem_map_of_mem Prod.fst (List.mem_of_mem_filter hp)

/-- On success, the sort's output is duplicate-free, contains only in-degree
keys, respects every dependency edge, and has exactly one entry per registered
constructor type. -/
theorem topologicalSort_out_props (c : Container)
    (hndd : (c.graph.dependencies.map Prod.fst).Nodup)
    (hG2 : ∀ s t, cnt t (depdOf c.graph s) = cnt s (depsOf c.graph t)) :
    ∀ out, topologicalSort c = .ok out →
      out.Nodup
      ∧ (∀ t ∈ out, t ∈ (buildInDeg c).map Prod.fst)
      ∧ (∀ i, i < out.length → ∀ d ∈ depsOf c.graph (out.getD i default), d ∈ out.take i)
      ∧ out.length = c.typesCtors.length := by
  intro out h
  have hG : GraphOK c.graph (buildInDeg c) := ⟨hG2, degAt_buildInDeg c hndd⟩
  have hndk := buildInDeg_keys_nodup c
  have hinv := kinv_init c.graph (buildInDeg c) hG hndk
  have hout := kahnLoop_out c.graph (buildInDeg c) hG ((buildInDeg c).length + 1) _ _ _ hinv
  simp only [topologicalSort] at h
  split at h
  · simp at h
  · rename_i hlen
    rw [not_ne_iff] at hlen
    have hout_eq : kahnLoop c.graph ((buildInDeg c).length + 1) (buildInDeg c)
        (((buildInDeg c).filter (fun p => p.2 = 0)).map Prod.fst) [] = out := by
      simpa using h
    rw [hout_eq] at hout hlen
    exact ⟨hout.1, hout.2.1, hout.2.2, hlen⟩

/-! ### The rebuilt graph -/

/-- The slice stored under a key in a Go map of slices (empty when absent). -/
def sliceAt (m : List (Ty × List Ty)) (j : Ty) : List Ty :=
  (lookupA m j).getD []

theorem sliceAt_appendA (m : List (Ty × List Ty)) (k v j : Ty) :
    sliceAt (appendA m k v) j
      = if k = j then sliceAt m j ++ [v] else sliceAt m j := by
  unfold appendA sliceAt
  cases h : lookupA m k with
  | some old =>
    by_cases hkj : k = j
    · subst hkj
      rw [lookupA_insert_self, h]
      simp
    · rw [lookupA_insert_ne _ _ _ _ hkj, if_neg hkj]
  | none =>
    by_cases hkj : k = j
    · subst hkj
      rw [lookupA_insert_self, h]
      simp
    · rw [lookupA_insert_ne _ _ _ _ hkj, if_neg hkj]

theorem cnt_singleton (x v : Ty) : cnt x [v] = if v = x then 1 else 0 := by
  rw [show ([v] : List Ty) = v :: [] from rfl, cnt_cons, cnt_nil]
  simp

theorem cnt_sliceAt_fold_args (args : List Ty) (consumer : Ty)
    (m : List (Ty × List Ty)) (j x : Ty) :
    cnt x (sliceAt (args.foldl (fun m2 d => appendA m2 d consumer) m) j)
      = cnt x (sliceAt m j) + (if x = consumer then cnt j args else 0) := by
  induction args generalizing m with
  | nil =>
    simp [cnt_nil]
  | cons d ds ih =>
    simp only [List.foldl_cons]
    rw [ih, sliceAt_appendA, cnt_cons]
    by_cases hdj : d = j
    · subst hdj
      by_cases hxc : x = consumer
      · subst hxc
        simp [cnt_append, cnt_singleton]
        omega
      · have hcx : ¬ consumer = x := fun he => hxc he.symm
        simp [cnt_append, cnt_singleton, hxc, hcx]
    · by_cases hxc : x = consumer
      · subst hxc
        simp [hdj]
      · simp [hdj, hxc]

theorem cnt_sliceAt_fold_tcs (tcs : List (Ty × Nat)) (st : List CtorInfo)
    (m : List (Ty × List Ty)) (j x : Ty) :
    cnt x (sliceAt (tcs.foldl
        (fun m p => ((st.getD p.2 default).args).foldl (fun m2 d => appendA m2 d p.1) m) m) j)
      = cnt x (sliceAt m j)
        + (tcs.map (fun p => if x = p.1 then cnt j ((st.getD p.2 default).args) else 0)).sum := by
  induction tcs generalizing m with
  | nil => simp
  | cons p rest ih =>
    simp only [List.foldl_cons, List.map_cons, List.sum_cons]
    rw [ih, cnt_sliceAt_fold_args]
    omega

theorem sum_pick_zero (tcs : List (Ty × Nat)) (st : List CtorInfo) (j x : Ty)
    (h : x ∉ tcs.map Prod.fst) :
    (tcs.map (fun p => if x = p.1 then cnt j ((st.getD p.2 default).args) else 0)).sum = 0 := by
  induction tcs with
  | nil => simp
  | cons p rest ih =>
    simp only [List.map_cons, List.mem_cons, not_or] at h
    simp only [List.map_cons, List.sum_cons]
    rw [if_neg h.1, ih h.2]

theorem sum_pick (tcs : List (Ty × Nat)) (st : List CtorInfo) (j x : Ty)
    (hnd : (tcs.map Prod.fst).Nodup) :
    (tcs.map (fun p => if x = p.1 then cnt j ((st.getD p.2 default).args) else 0)).sum
      = match lookupA tcs x with
        | some id => cnt j ((st.getD id default).args)
        | none => 0 := by
  induction tcs with
  | nil => simp [lookupA]
  | cons p rest ih =>
    simp only [List.map_cons, List.nodup_cons] at hnd
    simp only [List.map_cons, List.sum_cons]
    by_cases hp : p.1 = x
    · subst hp
      rw [if_pos rfl, sum_pick_zero rest st j p.1 hnd.1]
      simp [lookupA]
    · have hxp : ¬ x = p.1 := fun he => hp he.symm
      rw [if_neg hxp, ih hnd.2]
      simp [lookupA, hp]

theorem depsOf_rebuildGraph (c : Container) (t : Ty) :
    depsOf (rebuildGraph c).graph t
      = match lookupA c.typesCtors t with
        | some id => (getCtor c id).args
        | none => [] := by
  show (lookupA (c.typesCtors.map (fun p => (p.1, (getCtor c p.2).args))) t).getD [] = _
  induction c.typesCtors with
  | nil => simp [lookupA]
  | cons p rest ih =>
    by_cases hp : p.1 = t <;> simp [lookupA, hp, ih]

theorem depdOf_rebuildGraph_cnt (c : Container) (s t : Ty)
    (hnd : (c.typesCtors.map Prod.fst).Nodup) :
    cnt t (depdOf (rebuildGraph c).graph s) = cnt s (depsOf (rebuildGraph c).graph t) := by
  have hdepd : depdOf (rebuildGraph c).graph s
      = sliceAt (c.typesCtors.foldl
          (fun m p => ((c.store.getD p.2 default).args).foldl (fun m2 d => appendA m2 d p.1) m)
          []) s := rfl
  rw [hdepd, cnt_sliceAt_fold_tcs, sum_pick _ _ _ _ hnd, depsOf_rebuildGraph]
  have hnilslice : cnt t (sliceAt [] s) = 0 := rfl
  rw [hnilslice]
  cases lookupA c.typesCtors t with
  | some id => simp [getCtor]
  | none => simp [cnt_nil]

theorem rebuildGraph_depKeys (c : Container) :
    (rebuildGraph c).graph.dependencies.map Prod.fst = c.typesCtors.map Prod.fst := by
  simp [rebuildGraph]

/-! ### The instantiation loop -/

/-- The (post-resolution) argument list of the constructor registered for a
type (empty when none is registered). -/
def argsAt (c : Container) (t : Ty) : List Ty :=
  match lookupA c.typesCtors t with
  | some id => (getCtor c id).args
  | none => []

/-- The heap index of the constructor registered for a type. -/
def idAt (c : Container) (t : Ty) : Nat :=
  (lookupA c.typesCtors t).getD 0

/-- Whether the constructor registered for a type has an error result that
fires when invoked. -/
def ctorFails (c : Container) (t : Ty) : Bool :=
  match lookupA c.typesCtors t with
  | some id => (getCtor c id).hasErrOut && (getCtor c id).fails
  | none => false

theorem gatherArgs_ok (inst : List (Ty × Val)) (ds : List Ty)
    (h : ∀ d ∈ ds, (lookupA inst d).isSome) : ∃ vs, gatherArgs inst ds = .ok vs := by
  induction ds with
  | nil => exact ⟨[], rfl⟩
  | cons d ds ih =>
    rcases Option.isSome_iff_exists.1 (h d (by simp)) with ⟨v, hv⟩
    rcases ih (fun e he => h e (by simp [he])) with ⟨vs, hvs⟩
    exact ⟨v :: vs, by simp [gatherArgs, hv, hvs]⟩

theorem resolveInstance_ok (c : Container) (t : Ty) (id : Nat)
    (hid : lookupA c.typesCtors t = some id)
    (hdeps : ∀ d ∈ (getCtor c id).args, (lookupA c.instances d).isSome)
    (hnofail : ctorFails c t = false) :
    resolveInstance c t
      = ({ c with
            callLog := c.callLog ++ [(id, t)],
            instances := insertA c.instances t ⟨t, c.counter⟩,
            counter := c.counter + 1 }, .ok ()) := by
  simp only [ctorFails, hid] at hnofail
  rcases gatherArgs_ok c.instances (getCtor c id).args hdeps with ⟨vs, hvs⟩
  simp only [resolveInstance, hid, hvs, hnofail]
  rfl

theorem resolveInstance_fail (c : Container) (t : Ty) (id : Nat)
    (hid : lookupA c.typesCtors t = some id)
    (hdeps : ∀ d ∈ (getCtor c id).args, (lookupA c.instances d).isSome)
    (hfail : ctorFails c t = true) :
    resolveInstance c t
      = ({ c with callLog := c.callLog ++ [(id, t)] }, .error (.producerFailure t)) := by
  simp only [ctorFails, hid] at hfail
  rcases gatherArgs_ok c.instances (getCtor c id).args hdeps with ⟨vs, hvs⟩
  simp only [resolveInstance, hid, hvs, hfail]
  rfl

/-- Running the instantiation loop when no scheduled producer fails: every
scheduled type ends up freshly stored, the call log grows by exactly one entry
per scheduled type in order, and untouched cache entries are preserved. -/
theorem resolveList_ok (l : List Ty) :
    ∀ (c : Container),
      l.Nodup →
      (∀ t ∈ l, (lookupA c.typesCtors t).isSome) →
      (∀ t ∈ l, ctorFails c t = false) →
      (∀ i, i < l.length → ∀ d ∈ argsAt c (l.getD i default),
        d ∈ l.take i ∨ (lookupA c.instances d).isSome) →
      (resolveList c l).2 = .ok ()
      ∧ (resolveList c l).1.callLog = c.callLog ++ l.map (fun t => (idAt c t, t))
      ∧ (∀ q, q ∉ l → lookupA (resolveList c l).1.instances q = lookupA c.instances q)
      ∧ (∀ t ∈ l, ∃ v, lookupA (resolveList c l).1.instances t = some v ∧ c.counter ≤ v.tag)
      ∧ c.counter ≤ (resolveList c l).1.counter
      ∧ (resolveList c l).1.typesCtors = c.typesCtors
      ∧ (resolveList c l).1.store = c.store := by
  induction l with
  | nil =>
    intro c _ _ _ _
    exact ⟨rfl, by simp [resolveList], fun q _ => rfl, by simp, le_refl _, rfl, rfl⟩
  | cons t ts ih =>
    intro c hnd hsome hnofail hdeps
    simp only [List.nodup_cons] at hnd
    rcases Option.isSome_iff_exists.1 (hsome t (by simp)) with ⟨id, hid⟩
    have hargs0 : argsAt c t = (getCtor c id).args := by simp [argsAt, hid]
    have hdep0 : ∀ d ∈ (getCtor c id).args, (lookupA c.instances d).isSome := by
      intro d hd
      have h0 := hdeps 0 (by simp) d (by simpa [hargs0] using hd)
      simpa using h0
    have hri := resolveInstance_ok c t id hid hdep0 (hnofail t (by simp))
    have hstep : resolveList c (t :: ts)
        = resolveList ({ c with
            callLog := c.callLog ++ [(id, t)],
            instances := insertA c.instances t ⟨t, c.counter⟩,
            counter := c.counter + 1 }) ts := by
      rw [resolveList, hri]
    set c2 : Container := { c with
        callLog := c.callLog ++ [(id, t)],
        instances := insertA c.instances t ⟨t, c.counter⟩,
        counter := c.counter + 1 } with hc2
    have hsome2 : ∀ s ∈ ts, (lookupA c2.typesCtors s).isSome := fun s hs => hsome s (by simp [hs])
    have hnofail2 : ∀ s ∈ ts, ctorFails c2 s = false := fun s hs => hnofail s (by simp [hs])
    have hdeps2 : ∀ i, i < ts.length → ∀ d ∈ argsAt c2 (ts.getD i default),
        d ∈ ts.take i ∨ (lookupA c2.instances d).isSome := by
      intro i hi d hd
      have hag : argsAt c2 (ts.getD i default) = argsAt c (ts.getD i default) := rfl
      rw [hag] at hd
      have h1 := hdeps (i + 1) (by simpa using Nat.succ_lt_succ hi) d (by simpa using hd)
      rcases h1 with hmem | hsome1
      · rw [List.take_succ_cons] at hmem
        rcases List.mem_cons.1 hmem with rfl | hmem
        · right
          show (lookupA (insertA c.instances d ⟨d, c.counter⟩) d).isSome
          rw [lookupA_insert_self]
          rfl
        · exact Or.inl hmem
      · right
        show (lookupA (insertA c.instances t ⟨t, c.counter⟩) d).isSome
        by_cases hdt : t = d
        · rw [hdt, lookupA_insert_self]
          rfl
        · rw [lookupA_insert_ne _ _ _ _ hdt]
          exact hsome1
    have hrec := ih c2 hnd.2 hsome2 hnofail2 hdeps2
    obtain ⟨hr1, hr2, hr3, hr4, hr5, hr6, hr7⟩ := hrec
    rw [hstep]
    refine ⟨hr1, ?_, ?_, ?_, ?_, hr6, hr7⟩
    · rw [hr2]
      have hidt : idAt c t = id := by simp [idAt, hid]
      have hmapeq : ts.map (fun s => (idAt c2 s, s)) = ts.map (fun s => (idAt c s, s)) := rfl
      rw [hmapeq]
      simp [hc2, hidt]
    · intro q hq
      simp only [List.mem_cons, not_or] at hq
      rw [hr3 q hq.2]
      show lookupA (insertA c.instances t ⟨t, c.counter⟩) q = lookupA c.instances q
      exact lookupA_insert_ne _ _ _ _ (fun he => hq.1 he.symm)
    · intro s hs
      rcases List.mem_cons.1 hs with rfl | hs
      · refine ⟨⟨s, c.counter⟩, ?_, le_refl _⟩
        rw [hr3 s hnd.1]
        show lookupA (insertA c.instances s ⟨s, c.counter⟩) s = _
        exact lookupA_insert_self _ _ _
      · rcases hr4 s hs with ⟨v, hv, htag⟩
        refine ⟨v, hv, ?_⟩
        have : c2.counter = c.counter + 1 := rfl
        omega
    · have : c2.counter = c.counter + 1 := rfl
      omega

/-- Running the instantiation loop when the first failing producer sits at
position `j`: resolution aborts there with the producer's error, the producers
before it have run and stored fresh instances, nothing after `j` runs, and no
cache entry is rolled back. -/
theorem resolveList_fail (l : List Ty) :
    ∀ (c : Container) (j : Nat), j < l.length →
      l.Nodup →
      (∀ t ∈ l, (lookupA c.typesCtors t).isSome) →
      (∀ i, i < j → ctorFails c (l.getD i default) = false) →
      ctorFails c (l.getD j default) = true →
      (∀ i, i < l.length → ∀ d ∈ argsAt c (l.getD i default),
        d ∈ l.take i ∨ (lookupA c.instances d).isSome) →
      (resolveList c l).2 = .error (.producerFailure (l.getD j default))
      ∧ (resolveList c l).1.callLog
          = c.callLog ++ (l.take (j + 1)).map (fun t => (idAt c t, t))
      ∧ (∀ q, q ∉ l.take j →
          lookupA (resolveList c l).1.instances q = lookupA c.instances q)
      ∧ (∀ t ∈ l.take j, ∃ v,
          lookupA (resolveList c l).1.instances t = some v ∧ c.counter ≤ v.tag) := by
  induction l with
  | nil =>
    intro c j hj
    simp at hj
  | cons t ts ih =>
    intro c j hj hnd hsome hpre hfail hdeps
    simp only [List.nodup_cons] at hnd
    rcases Option.isSome_iff_exists.1 (hsome t (by simp)) with ⟨id, hid⟩
    have hargs0 : argsAt c t = (getCtor c id).args := by simp [argsAt, hid]
    have hdep0 : ∀ d ∈ (getCtor c id).args, (lookupA c.instances d).isSome := by
      intro d hd
      have h0 := hdeps 0 (by simp) d (by simpa [hargs0] using hd)
      simpa using h0
    cases j with
    | zero =>
      have hfail0 : ctorFails c t = true := by simpa using hfail
      have hri := resolveInstance_fail c t id hid hdep0 hfail0
      have hstep : resolveList c (t :: ts)
          = ({ c with callLog := c.callLog ++ [(id, t)] },
              .error (.producerFailure t)) := by
        rw [resolveList, hri]
      rw [hstep]
      refine ⟨by simp, ?_, ?_, ?_⟩
      · simp [idAt, hid]
      · intro q _
        rfl
      · intro s hs
        simp at hs
    | succ j =>
      have hok0 : ctorFails c t = false := by simpa using hpre 0 (Nat.succ_pos j)
      have hri := resolveInstance_ok c t id hid hdep0 hok0
      have hstep : resolveList c (t :: ts)
          = resolveList ({ c with
              callLog := c.callLog ++ [(id, t)],
              instances := insertA c.instances t ⟨t, c.counter⟩,
              counter := c.counter + 1 }) ts := by
        rw [resolveList, hri]
      set c2 : Container := { c with
          callLog := c.callLog ++ [(id, t)],
          instances := insertA c.instances t ⟨t, c.counter⟩,
          counter := c.counter + 1 } with hc2
      have hsome2 : ∀ s ∈ ts, (lookupA c2.typesCtors s).isSome :=
        fun s hs => hsome s (by simp [hs])
      have hpre2 : ∀ i, i < j → ctorFails c2 (ts.getD i default) = false := by
        intro i hi
        have := hpre (i + 1) (Nat.succ_lt_succ hi)
        simpa using this
      have hfail2 : ctorFails c2 (ts.getD j default) = true := by
        simpa using hfail
      have hdeps2 : ∀ i, i < ts.length → ∀ d ∈ argsAt c2 (ts.getD i default),
          d ∈ ts.take i ∨ (lookupA c2.instances d).isSome := by
        intro i hi d hd
        have hag : argsAt c2 (ts.getD i default) = argsAt c (ts.getD i default) := rfl
        rw [hag] at hd
        have h1 := hdeps (i + 1) (by simpa using Nat.succ_lt_succ hi) d (by simpa using hd)
        rcases h1 with hmem | hsome1
        · rw [List.take_succ_cons] at hmem
          rcases List.mem_cons.1 hmem with rfl | hmem
          · right
            show (lookupA (insertA c.instances d ⟨d, c.counter⟩) d).isSome
            rw [lookupA_insert_self]
            rfl
          · exact Or.inl hmem
        · right
          show (lookupA (insertA c.instances t ⟨t, c.counter⟩) d).isSome
          by_cases hdt : t = d
          · rw [hdt, lookupA_insert_self]
            rfl
          · rw [lookupA_insert_ne _ _ _ _ hdt]
            exact hsome1
      have hj2 : j < ts.length := by simpa using hj
      have hrec := ih c2 j hj2 hnd.2 hsome2 hpre2 hfail2 hdeps2
      obtain ⟨hr1, hr2, hr3, hr4⟩ := hrec
      rw [hstep]
      refine ⟨by simpa using hr1, ?_, ?_, ?_⟩
      · rw [hr2]
        have hidt : idAt c t = id := by simp [idAt, hid]
        have hmapeq : (ts.take (j + 1)).map (fun s => (idAt c2 s, s))
            = (ts.take (j + 1)).map (fun s => (idAt c s, s)) := rfl
        rw [hmapeq]
        simp [hc2, hidt, List.take_succ_cons]
      · intro q hq
        rw [List.take_succ_cons, List.mem_cons, not_or] at hq
        rw [hr3 q hq.2]
        show lookupA (insertA c.instances t ⟨t, c.counter⟩) q = lookupA c.instances q
        exact lookupA_insert_ne _ _ _ _ (fun he => hq.1 he.symm)
      · intro s hs
        rw [List.take_succ_cons] at hs
        rcases List.mem_cons.1 hs with rfl | hs
        · have hnmem : s ∉ ts.take j :=
            fun hmem => hnd.1 (List.mem_of_mem_take hmem)
          refine ⟨⟨s, c.counter⟩, ?_, le_refl _⟩
          rw [hr3 s hnmem]
          show lookupA (insertA c.instances s ⟨s, c.counter⟩) s = _
          exact lookupA_insert_self _ _ _
        · rcases hr4 s hs with ⟨v, hv, htag⟩
          refine ⟨v, hv, ?_⟩
          have hcc : c2.counter = c.counter + 1 := rfl
          omega

/-! ### Resolve-level assembly -/

theorem getD_eq_get {α : Type} [Inhabited α] (l : List α) (i : Nat) (h : i < l.length) :
    l.getD i default = l.get ⟨i, h⟩ := by
  induction l generalizing i with
  | nil => simp at h
  | cons a l ih =>
    cases i with
    | zero => rfl
    | succ i =>
      simp only [List.length_cons] at h
      exact ih i (by omega)

theorem mem_exists_getD {α : Type} [Inhabited α] (l : List α) (t : α) (h : t ∈ l) :
    ∃ i, i < l.length ∧ l.getD i default = t := by
  induction l with
  | nil => simp at h
  | cons a l ih =>
    rcases List.mem_cons.1 h with rfl | h
    · exact ⟨0, by simp, rfl⟩
    · rcases ih h with ⟨i, hi, hget⟩
      exact ⟨i + 1, by simpa using Nat.succ_lt_succ hi, hget⟩

theorem mem_take_exists_getD {α : Type} [Inhabited α] (l : List α) (j : Nat) (d : α)
    (h : d ∈ l.take j) : ∃ k, k < j ∧ k < l.length ∧ l.getD k default = d := by
  induction l generalizing j with
  | nil => simp at h
  | cons a l ih =>
    cases j with
    | zero => simp at h
    | succ j =>
      rw [List.take_succ_cons] at h
      rcases List.mem_cons.1 h with rfl | h
      · exact ⟨0, Nat.succ_pos j, by simp, rfl⟩
      · rcases ih j h with ⟨k, hk1, hk2, hk3⟩
        exact ⟨k + 1, Nat.succ_lt_succ hk1, by simpa using Nat.succ_lt_succ hk2, hk3⟩

theorem argsAt_rebuildGraph (c : Container) (t : Ty) :
    argsAt (rebuildGraph c) t = depsOf (rebuildGraph c).graph t := by
  rw [depsOf_rebuildGraph]
  rfl

/-- On success, the sorted output is exactly an enumeration of the registered
types, in an order that respects the rebuilt dependency graph. -/
theorem sorted_perm_of_keys (c2 : Container)
    (hnd : (c2.typesCtors.map Prod.fst).Nodup)
    (hreg : ∀ t ∈ c2.typeRegistry, t ∈ c2.typesCtors.map Prod.fst)
    (hdk : c2.graph.dependencies.map Prod.fst = c2.typesCtors.map Prod.fst)
    (hG2 : ∀ s t, cnt t (depdOf c2.graph s) = cnt s (depsOf c2.graph t))
    (out : List Ty) (hs : topologicalSort c2 = .ok out) :
    out.Nodup
    ∧ (∀ t, t ∈ out ↔ t ∈ c2.typesCtors.map Prod.fst)
    ∧ (∀ i, i < out.length → ∀ d ∈ depsOf c2.graph (out.getD i default), d ∈ out.take i) := by
  have hndd : (c2.graph.dependencies.map Prod.fst).Nodup := by rw [hdk]; exact hnd
  obtain ⟨h1, h2, h3, h4⟩ := topologicalSort_out_props c2 hndd hG2 out hs
  have hsubk : ∀ t ∈ out, t ∈ c2.typesCtors.map Prod.fst := by
    intro t ht
    have hmem := h2 t ht
    rw [mem_buildInDeg_keys] at hmem
    rcases hmem with h | h
    · exact hreg t h
    · rw [hdk] at h
      exact h
  have hsp : List.Subperm out (c2.typesCtors.map Prod.fst) := List.Nodup.subperm h1 hsubk
  have hlen : (c2.typesCtors.map Prod.fst).length ≤ out.length := by
    rw [List.length_map]
    omega
  have hperm := hsp.perm_of_length_le hlen
  exact ⟨h1, fun t => ⟨fun ht => hsubk t ht, fun ht => hperm.mem_iff.2 ht⟩, h3⟩

theorem resolve_eq_of_ri_error (c : Container) (tgt : Ty) (e : Err)
    (hri : (resolveInterfaces c).2 = .error e) :
    resolve c tgt = ((resolveInterfaces c).1, .error e) := by
  simp only [resolve, hri]

theorem resolve_eq_of_validate_error (c : Container) (tgt : Ty) (e : Err)
    (hri : (resolveInterfaces c).2 = .ok ())
    (hv : validateDependencies (rebuildGraph (resolveInterfaces c).1) = .error e) :
    resolve c tgt = (rebuildGraph (resolveInterfaces c).1, .error e) := by
  simp only [resolve, hri, hv]

theorem resolve_eq_of_sort_error (c : Container) (tgt : Ty) (e : Err)
    (hri : (resolveInterfaces c).2 = .ok ())
    (hv : validateDependencies (rebuildGraph (resolveInterfaces c).1) = .ok ())
    (hs : topologicalSort (rebuildGraph (resolveInterfaces c).1) = .error e) :
    resolve c tgt = (rebuildGraph (resolveInterfaces c).1, .error e) := by
  simp only [resolve, hri, hv, hs]

theorem resolve_eq_of_loop_error (c : Container) (tgt : Ty) (out : List Ty) (e : Err)
    (hri : (resolveInterfaces c).2 = .ok ())
    (hv : validateDependencies (rebuildGraph (resolveInterfaces c).1) = .ok ())
    (hs : topologicalSort (rebuildGraph (resolveInterfaces c).1) = .ok out)
    (hf : (resolveList (rebuildGraph (resolveInterfaces c).1) out).2 = .error e) :
    resolve c tgt
      = ((resolveList (rebuildGraph (resolveInterfaces c).1) out).1, .error e) := by
  simp only [resolve, hri, hv, hs, hf]

theorem resolve_eq_of_loop_ok (c : Container) (tgt : Ty) (out : List Ty)
    (hri : (resolveInterfaces c).2 = .ok ())
    (hv : validateDependencies (rebuildGraph (resolveInterfaces c).1) = .ok ())
    (hs : topologicalSort (rebuildGraph (resolveInterfaces c).1) = .ok out)
    (hLok : (resolveList (rebuildGraph (resolveInterfaces c).1) out).2 = .ok ()) :
    resolve c tgt
      = match lookupA (resolveList (rebuildGraph (resolveInterfaces c).1) out).1.instances tgt with
        | some v =>
          if v.ty = tgt
          then ((resolveList (rebuildGraph (resolveInterfaces c).1) out).1, .ok v)
          else ((resolveList (rebuildGraph (resolveInterfaces c).1) out).1,
            .error (.notAssignable tgt))
        | none => ((resolveList (rebuildGraph (resolveInterfaces c).1) out).1,
            .error (.noInstance tgt)) := by
  simp only [resolve, hri, hv, hs, hLok]

/-- If the instantiation loop succeeded, none of the scheduled producers can
have a firing error result. -/
theorem resolveList_no_fail_of_ok (l : List Ty) (c : Container)
    (hnd : l.Nodup)
    (hsome : ∀ t ∈ l, (lookupA c.typesCtors t).isSome)
    (hdeps : ∀ i, i < l.length → ∀ d ∈ argsAt c (l.getD i default),
        d ∈ l.take i ∨ (lookupA c.instances d).isSome)
    (hok : (resolveList c l).2 = .ok ()) :
    ∀ t ∈ l, ctorFails c t = false := by
  by_contra hcon
  push_neg at hcon
  rcases hcon with ⟨t, ht, hfail⟩
  have hfail2 : ctorFails c t = true := by
    cases hb : ctorFails c t
    · exact absurd hb hfail
    · rfl
  rcases mem_exists_getD l t ht with ⟨i0, hi0, hget0⟩
  have hex : ∃ j, j < l.length ∧ ctorFails c (l.getD j default) = true :=
    ⟨i0, hi0, by rw [hget0]; exact hfail2⟩
  obtain ⟨hjlen, hjfail⟩ := Nat.find_spec hex
  have hpre : ∀ i, i < Nat.find hex → ctorFails c (l.getD i default) = false := by
    intro i hi
    have hnot := Nat.find_min hex hi
    cases hb : ctorFails c (l.getD i default)
    · rfl
    · exact absurd ⟨lt_trans hi hjlen, hb⟩ hnot
  obtain ⟨hf1, _, _, _⟩ :=
    resolveList_fail l c (Nat.find hex) hjlen hnd hsome hpre hjfail hdeps
  rw [hok] at hf1
  simp at hf1

/-- Anatomy of a successful `resolve`: the call reaches the instantiation loop
with a sorted schedule that enumerates exactly the registered types and
respects the rebuilt graph; every scheduled producer runs once in schedule
order, refreshing the cache entry of every registered type. -/
theorem resolve_ok_anatomy (c : Container) (tgt : Ty) (hWF : WF c)
    (hok : ((resolve c tgt).2).isOk = true) :
    ∃ out : List Ty,
      out.Nodup
      ∧ (∀ t, t ∈ out ↔ t ∈ c.typesCtors.map Prod.fst)
      ∧ (resolve c tgt).1.callLog
          = c.callLog ++ out.map (fun t => (idAt (rebuildGraph (resolveInterfaces c).1) t, t))
      ∧ (∀ i, i < out.length →
          ∀ d ∈ argsAt (rebuildGraph (resolveInterfaces c).1) (out.getD i default),
            d ∈ out.take i)
      ∧ (∀ t ∈ out, ∃ v, lookupA (resolve c tgt).1.instances t = some v ∧ c.counter ≤ v.tag)
      ∧ (∀ q, q ∉ out → lookupA (resolve c tgt).1.instances q = lookupA c.instances q)
      ∧ (resolve c tgt).1.store = (rebuildGraph (resolveInterfaces c).1).store := by
  obtain ⟨hw1, hw2, hw3, hw4⟩ := hWF
  cases hri : (resolveInterfaces c).2 with
  | error e =>
    rw [resolve_eq_of_ri_error c tgt e hri] at hok
    simp [Except.isOk, Except.toBool] at hok
  | ok u =>
    cases u
    cases hv : validateDependencies (rebuildGraph (resolveInterfaces c).1) with
    | error e =>
      rw [resolve_eq_of_validate_error c tgt e hri hv] at hok
      simp [Except.isOk, Except.toBool] at hok
    | ok u2 =>
      cases u2
      cases hs : topologicalSort (rebuildGraph (resolveInterfaces c).1) with
      | error e =>
        rw [resolve_eq_of_sort_error c tgt e hri hv hs] at hok
        simp [Except.isOk, Except.toBool] at hok
      | ok out =>
        have hnd2 : ((rebuildGraph (resolveInterfaces c).1).typesCtors.map Prod.fst).Nodup := hw1
        have hreg2 : ∀ t ∈ (rebuildGraph (resolveInterfaces c).1).typeRegistry,
            t ∈ (rebuildGraph (resolveInterfaces c).1).typesCtors.map Prod.fst := hw2
        have hdk2 := rebuildGraph_depKeys (resolveInterfaces c).1
        have hG2 : ∀ s t, cnt t (depdOf (rebuildGraph (resolveInterfaces c).1).graph s)
            = cnt s (depsOf (rebuildGraph (resolveInterfaces c).1).graph t) :=
          fun s t => depdOf_rebuildGraph_cnt (resolveInterfaces c).1 s t hnd2
        obtain ⟨ho1, ho2, ho3⟩ :=
          sorted_perm_of_keys (rebuildGraph (resolveInterfaces c).1) hnd2 hreg2 hdk2 hG2 out hs
        have hsome : ∀ t ∈ out,
            (lookupA (rebuildGraph (resolveInterfaces c).1).typesCtors t).isSome := by
          intro t ht
          exact (lookupA_isSome_iff _ t).2 ((ho2 t).1 ht)
        have hdeps : ∀ i, i < out.length →
            ∀ d ∈ argsAt (rebuildGraph (resolveInterfaces c).1) (out.getD i default),
              d ∈ out.take i
              ∨ (lookupA (rebuildGraph (resolveInterfaces c).1).instances d).isSome := by
          intro i hi d hd
          rw [argsAt_rebuildGraph] at hd
          exact Or.inl (ho3 i hi d hd)
        cases hL : (resolveList (rebuildGraph (resolveInterfaces c).1) out).2 with
        | error e =>
          rw [resolve_eq_of_loop_error c tgt out e hri hv hs hL] at hok
          simp [Except.isOk, Except.toBool] at hok
        | ok u3 =>
          cases u3
          have hnofail := resolveList_no_fail_of_ok out (rebuildGraph (resolveInterfaces c).1)
            ho1 hsome hdeps hL
          obtain ⟨_, hQ2, hQ3, hQ4, hQ5, hQ6, hQ7⟩ :=
            resolveList_ok out (rebuildGraph (resolveInterfaces c).1) ho1 hsome hnofail hdeps
          have hres1 : (resolve c tgt).1
              = (resolveList (rebuildGraph (resolveInterfaces c).1) out).1 := by
            rw [resolve_eq_of_loop_ok c tgt out hri hv hs hL]
            cases hlk : lookupA (resolveList (rebuildGraph (resolveInterfaces c).1) out).1.instances tgt with
            | some v =>
              by_cases hvt : v.ty = tgt <;> simp [hvt]
            | none => simp
          refine ⟨out, ho1, ho2, ?_, ?_, ?_, ?_, ?_⟩
          · rw [hres1, hQ2]
            rfl
          · intro i hi d hd
            rw [argsAt_rebuildGraph] at hd
            exact ho3 i hi d hd
          · intro t ht
            rw [hres1]
            exact hQ4 t ht
          · intro q hq
            rw [hres1]
            exact hQ3 q hq
          · rw [hres1]
            exact hQ7

/-! ### The capability-resolution pass on fully concrete signatures -/

theorem list_set_getD_self {α : Type} [Inhabited α] (l : List α) (i : Nat) :
    l.set i (l.getD i default) = l := by
  induction l generalizing i with
  | nil => rfl
  | cons a l ih =>
    cases i with
    | zero => rfl
    | succ i =>
      show a :: l.set i (l.getD i default) = a :: l
      rw [ih i]

theorem resolveSlots_nofr (reg : List Ty) (bs : List Bool) (i : Nat) (info : CtorInfo)
    (h : ∀ b ∈ bs, b = false) : resolveSlots reg bs i info = (info, .ok ()) := by
  induction bs generalizing i with
  | nil => rfl
  | cons b bs ih =>
    have hb := h b (by simp)
    subst hb
    show resolveSlots reg (false :: bs) i info = (info, .ok ())
    rw [resolveSlots]
    simp only [if_neg (by simp : ¬ (false = true))]
    exact ih (i + 1) (fun b2 hb2 => h b2 (by simp [hb2]))

theorem resolveInterfacesGo_nofr (reg : List Ty) (ids : List Nat) (store : List CtorInfo)
    (h : ∀ id ∈ ids, ∀ b ∈ (store.getD id default).needsRes, b = false) :
    resolveInterfacesGo reg ids store = (store, .ok ()) := by
  induction ids with
  | nil => rfl
  | cons id ids ih =>
    rw [resolveInterfacesGo]
    rw [resolveSlots_nofr reg _ 0 _ (h id (by simp))]
    simp only [list_set_getD_self]
    exact ih (fun id2 h2 => h id2 (by simp [h2]))

/-- Re-running the capability-resolution pass is a no-op exactly when no
constructor input is still marked as needing resolution. -/
theorem resolveInterfaces_noflags (c : Container)
    (h : ∀ id ∈ c.constructors, ∀ b ∈ (getCtor c id).needsRes, b = false) :
    resolveInterfaces c = (c, .ok ()) := by
  unfold resolveInterfaces
  rw [resolveInterfacesGo_nofr _ _ _ h]

/-! ### Validation -/

theorem mem_dedup_fold (args acc : List Ty) (x : Ty) :
    x ∈ args.foldl (fun a d => if d ∈ a then a else a ++ [d]) acc
      ↔ x ∈ acc ∨ x ∈ args := by
  induction args generalizing acc with
  | nil => simp
  | cons d args ih =>
    simp only [List.foldl_cons]
    rw [ih]
    by_cases hd : d ∈ acc
    · rw [if_pos hd]
      constructor
      · rintro (h | h)
        · exact Or.inl h
        · exact Or.inr (List.mem_cons_of_mem d h)
      · rintro (h | h)
        · exact Or.inl h
        · rcases List.mem_cons.1 h with rfl | h
          · exact Or.inl hd
          · exact Or.inr h
    · rw [if_neg hd]
      simp only [List.mem_append, List.mem_singleton, List.mem_cons]
      tauto

theorem mem_requiredTypes_fold (ids : List Nat) (c : Container) (acc : List Ty) (x : Ty) :
    x ∈ ids.foldl
        (fun acc id => (getCtor c id).args.foldl (fun a d => if d ∈ a then a else a ++ [d]) acc)
        acc
      ↔ x ∈ acc ∨ ∃ id ∈ ids, x ∈ (getCtor c id).args := by
  induction ids generalizing acc with
  | nil => simp
  | cons id ids ih =>
    simp only [List.foldl_cons]
    rw [ih, mem_dedup_fold]
    simp only [List.mem_cons]
    constructor
    · rintro ((h | h) | ⟨id2, hid2, h⟩)
      · exact Or.inl h
      · exact Or.inr ⟨id, Or.inl rfl, h⟩
      · exact Or.inr ⟨id2, Or.inr hid2, h⟩
    · rintro (h | ⟨id2, (rfl | hid2), h⟩)
      · exact Or.inl (Or.inl h)
      · exact Or.inl (Or.inr h)
      · exact Or.inr ⟨id2, hid2, h⟩

theorem mem_requiredTypes (c : Container) (x : Ty) :
    x ∈ requiredTypes c ↔ ∃ id ∈ c.constructors, x ∈ (getCtor c id).args := by
  unfold requiredTypes
  rw [mem_requiredTypes_fold]
  simp

/-- When some required dependency type has no registered constructor,
validation fails with a `missingDep` error naming a missing required type. -/
theorem validateDependencies_error_of_missing (c : Container) (d : Ty)
    (hreq : d ∈ requiredTypes c) (hmiss : lookupA c.typesCtors d = none) :
    ∃ m, validateDependencies c = .error (.missingDep m)
      ∧ m ∈ requiredTypes c ∧ lookupA c.typesCtors m = none := by
  unfold validateDependencies
  cases hf : (requiredTypes c).find? (fun e => (lookupA c.typesCtors e).isNone) with
  | none =>
    have := List.find?_eq_none.1 hf d hreq
    simp [hmiss] at this
  | some m =>
    have hm1 := List.find?_some hf
    have hm2 := List.mem_of_find?_eq_some hf
    refine ⟨m, rfl, hm2, ?_⟩
    simpa using hm1

/-! ### Small glue helpers -/

theorem getD_set_ne {α : Type} [Inhabited α] (l : List α) (i j : Nat) (a : α)
    (h : i ≠ j) : (l.set i a).getD j default = l.getD j default := by
  induction l generalizing i j with
  | nil => rfl
  | cons b l ih =>
    cases i with
    | zero =>
      cases j with
      | zero => exact absurd rfl h
      | succ j => rfl
    | succ i =>
      cases j with
      | zero => rfl
      | succ j =>
        show (l.set i a).getD j default = l.getD j default
        exact ih i j (fun he => h (by rw [he]))

theorem getD_set_self {α : Type} [Inhabited α] (l : List α) (i : Nat) (a : α)
    (h : i < l.length) : (l.set i a).getD i default = a := by
  induction l generalizing i with
  | nil => simp at h
  | cons b l ih =>
    cases i with
    | zero => rfl
    | succ i =>
      simp only [List.length_cons] at h
      exact ih i (by omega)

theorem getD_append_right {α : Type} [Inhabited α] (l1 l2 : List α) (i : Nat) :
    (l1 ++ l2).getD (l1.length + i) default = l2.getD i default := by
  induction l1 with
  | nil => simp
  | cons a l1 ih =>
    have hidx : (a :: l1).length + i = (l1.length + i) + 1 := by
      simp only [List.length_cons]
      omega
    rw [List.cons_append, hidx]
    show (l1 ++ l2).getD (l1.length + i) default = l2.getD i default
    exact ih

theorem getD_mem_take {α : Type} [Inhabited α] (l : List α) (i j : Nat)
    (hij : i < j) (hil : i < l.length) : l.getD i default ∈ l.take j := by
  induction l generalizing i j with
  | nil => simp at hil
  | cons a l ih =>
    cases j with
    | zero => omega
    | succ j =>
      rw [List.take_succ_cons]
      cases i with
      | zero => exact List.mem_cons_self _ _
      | succ i =>
        simp only [List.length_cons] at hil
        exact List.mem_cons_of_mem a (ih i j (by omega) (by omega))

theorem log_filter_cnt (out : List Ty) (f : Ty → Nat) (t : Ty) :
    ((out.map (fun s => (f s, s))).filter (fun e => e.2 = t)).length = cnt t out := by
  induction out with
  | nil => rfl
  | cons a out ih =>
    simp only [List.map_cons, List.filter_cons, cnt_cons]
    by_cases ha : a = t
    · rw [if_pos (by simpa using ha), if_pos ha, List.length_cons, ih]
      omega
    · rw [if_neg (by simpa using ha), if_neg ha, ih]
      omega

/-! ### Cycles -/

/-- Each node of the list requires its successor. -/
def chainReq (g : Graph) : List Ty → Prop
  | [] => True
  | [_] => True
  | a :: b :: rest => b ∈ depsOf g a ∧ chainReq g (b :: rest)

def chainReqDec (g : Graph) : ∀ l, Decidable (chainReq g l)
  | [] => .isTrue trivial
  | [_] => .isTrue trivial
  | a :: b :: rest =>
    have : Decidable (chainReq g (b :: rest)) := chainReqDec g (b :: rest)
    inferInstanceAs (Decidable (b ∈ depsOf g a ∧ chainReq g (b :: rest)))

instance (g : Graph) (l : List Ty) : Decidable (chainReq g l) := chainReqDec g l

theorem chainReq_get (g : Graph) (l : List Ty) (h : chainReq g l) :
    ∀ i (hi : i + 1 < l.length),
      l.get ⟨i + 1, hi⟩ ∈ depsOf g (l.get ⟨i, by omega⟩) := by
  induction l with
  | nil =>
    intro i hi
    simp at hi
  | cons a l ih =>
    cases l with
    | nil =>
      intro i hi
      simp at hi
    | cons b rest =>
      obtain ⟨hab, htail⟩ := h
      intro i hi
      cases i with
      | zero => exact hab
      | succ i =>
        exact ih htail i (by simpa using hi)

/-- A directed cycle in a dependency graph: a nonempty list in which each node
requires the next, and the last node requires the first. -/
def CycleIn (g : Graph) (cyc : List Ty) : Prop :=
  cyc ≠ []
  ∧ chainReq g cyc
  ∧ cyc.head?.getD default ∈ depsOf g (cyc.getLast?.getD default)

instance (g : Graph) (cyc : List Ty) : Decidable (CycleIn g cyc) :=
  inferInstanceAs (Decidable (cyc ≠ []
    ∧ chainReq g cyc
    ∧ cyc.head?.getD default ∈ depsOf g (cyc.getLast?.getD default)))

/-- Every node of a cycle requires another node of the cycle. -/
theorem cycle_succ (g : Graph) (cyc : List Ty) (hcyc : CycleIn g cyc) :
    ∀ z ∈ cyc, ∃ w ∈ cyc, w ∈ depsOf g z := by
  obtain ⟨hne, hchain, hloop⟩ := hcyc
  intro z hz
  rcases List.mem_iff_get.1 hz with ⟨⟨i, hi⟩, rfl⟩
  rcases Nat.lt_or_ge (i + 1) cyc.length with hlt | hge
  · exact ⟨cyc.get ⟨i + 1, hlt⟩, List.get_mem cyc _ _, chainReq_get g cyc hchain i hlt⟩
  · have hi_last : i = cyc.length - 1 := by omega
    have hlast : cyc.get ⟨i, hi⟩ = cyc.getLast hne := by
      have hfin : (⟨i, hi⟩ : Fin cyc.length) = ⟨cyc.length - 1, by omega⟩ := by
        apply Fin.ext
        simpa using hi_last
      rw [hfin, List.getLast_eq_getElem]
      rfl
    refine ⟨cyc.head hne, List.head_mem hne, ?_⟩
    rw [hlast]
    have h1 : cyc.head? = some (cyc.head hne) := List.head?_eq_head hne
    have h2 : cyc.getLast? = some (cyc.getLast hne) := List.getLast?_eq_getLast cyc hne
    rw [h1, h2] at hloop
    exact hloop

/-- No node of a dependency cycle can appear in a list that respects every
dependency edge. -/
theorem cycle_not_sorted (g : Graph) (out : List Ty)
    (hresp : ∀ i, i < out.length → ∀ d ∈ depsOf g (out.getD i default), d ∈ out.take i)
    (cyc : List Ty) (hcyc : CycleIn g cyc) :
    ∃ z ∈ cyc, z ∉ out := by
  by_contra hcon
  push_neg at hcon
  have hsucc := cycle_succ g cyc hcyc
  have hexist : ∃ i, i < out.length ∧ out.getD i default ∈ cyc := by
    rcases List.exists_mem_of_ne_nil cyc hcyc.1 with ⟨z, hz⟩
    rcases mem_exists_getD out z (hcon z hz) with ⟨i, hi, hget⟩
    exact ⟨i, hi, by rw [hget]; exact hz⟩
  obtain ⟨hjlen, hjmem⟩ := Nat.find_spec hexist
  rcases hsucc _ hjmem with ⟨w, hwc, hwd⟩
  have hwt := hresp (Nat.find hexist) hjlen w hwd
  rcases mem_take_exists_getD out (Nat.find hexist) w hwt with ⟨k, hk1, hk2, hk3⟩
  exact Nat.find_min hexist hk1 ⟨hk2, by rw [hk3]; exact hwc⟩

/-- Every node of a cycle in the rebuilt graph is a registered type. -/
theorem cycle_mem_depKeys (g : Graph) (cyc : List Ty) (hcyc : CycleIn g cyc) :
    ∀ z ∈ cyc, z ∈ g.dependencies.map Prod.fst := by
  intro z hz
  rcases cycle_succ g cyc hcyc z hz with ⟨w, _, hwd⟩
  unfold depsOf at hwd
  cases hlk : lookupA g.dependencies z with
  | none => rw [hlk] at hwd; simp at hwd
  | some ds =>
    by_contra hmem
    rw [(lookupA_eq_none_iff _ _).2 hmem] at hlk
    simp at hlk

theorem nodup_same_mem_length (l1 l2 : List Ty) (h1 : l1.Nodup) (h2 : l2.Nodup)
    (h : ∀ t, t ∈ l1 ↔ t ∈ l2) : l1.length = l2.length := by
  have p1 : List.Subperm l1 l2 := h1.subperm (fun t ht => (h t).1 ht)
  have p2 : List.Subperm l2 l1 := h2.subperm (fun t ht => (h t).2 ht)
  exact le_antisymm p1.length_le p2.length_le

/-- A cycle among registered types forces the sort to fail with the
circular-dependency error, reporting strictly fewer processed types than
registered ones — never a silent partial result. -/
theorem topologicalSort_cycle_error (c2 : Container)
    (hnd : (c2.typesCtors.map Prod.fst).Nodup)
    (hreg : ∀ t ∈ c2.typeRegistry, t ∈ c2.typesCtors.map Prod.fst)
    (hdk : c2.graph.dependencies.map Prod.fst = c2.typesCtors.map Prod.fst)
    (hG2 : ∀ s t, cnt t (depdOf c2.graph s) = cnt s (depsOf c2.graph t))
    (cyc : List Ty) (hcyc : CycleIn c2.graph cyc) :
    ∃ p q, topologicalSort c2 = .error (.circular p q) ∧ p < q := by
  by_cases hlen : (kahnLoop c2.graph ((buildInDeg c2).length + 1) (buildInDeg c2)
      (((buildInDeg c2).filter (fun p => p.2 = 0)).map Prod.fst) []).length
      ≠ c2.typesCtors.length
  · have hndd : (c2.graph.dependencies.map Prod.fst).Nodup := by rw [hdk]; exact hnd
    have hG : GraphOK c2.graph (buildInDeg c2) := ⟨hG2, degAt_buildInDeg c2 hndd⟩
    have hndk := buildInDeg_keys_nodup c2
    have hout := kahnLoop_out c2.graph (buildInDeg c2) hG ((buildInDeg c2).length + 1) _ _ _
      (kinv_init c2.graph (buildInDeg c2) hG hndk)
    have hmemiff : ∀ t, t ∈ (buildInDeg c2).map Prod.fst ↔ t ∈ c2.typesCtors.map Prod.fst := by
      intro t
      rw [mem_buildInDeg_keys]
      constructor
      · rintro (h | h)
        · exact hreg t h
        · rw [hdk] at h
          exact h
      · intro h
        right
        rw [hdk]
        exact h
    have hkeyslen : ((buildInDeg c2).map Prod.fst).length = c2.typesCtors.length := by
      have := nodup_same_mem_length _ _ hndk hnd hmemiff
      simpa using this
    have hsublen := (hout.1.subperm hout.2.1).length_le
    refine ⟨(kahnLoop c2.graph ((buildInDeg c2).length + 1) (buildInDeg c2)
        (((buildInDeg c2).filter (fun p => p.2 = 0)).map Prod.fst) []).length,
      c2.typesCtors.length, ?_, by omega⟩
    simp only [topologicalSort]
    rw [if_pos hlen]
  · exfalso
    rw [not_ne_iff] at hlen
    have hres : topologicalSort c2 = .ok (kahnLoop c2.graph ((buildInDeg c2).length + 1)
        (buildInDeg c2) (((buildInDeg c2).filter (fun p => p.2 = 0)).map Prod.fst) []) := by
      simp only [topologicalSort]
      rw [if_neg (by omega)]
    obtain ⟨ho1, ho2, ho3⟩ := sorted_perm_of_keys c2 hnd hreg hdk hG2 _ hres
    rcases cycle_not_sorted c2.graph _ ho3 cyc hcyc with ⟨z, hz, hzout⟩
    have hzk := cycle_mem_depKeys c2.graph cyc hcyc z hz
    rw [hdk] at hzk
    exact hzout ((ho2 z).2 hzk)

/-! ### Capability resolution with a single marked slot -/

theorem resolveSlots_shape (reg : List Ty) (fpre : List Bool) (fpost : List Bool)
    (i0 : Nat) (info : CtorInfo) (hpre : ∀ b ∈ fpre, b = false) :
    resolveSlots reg (fpre ++ true :: fpost) i0 info
      = match findImpls reg (info.args.getD (i0 + fpre.length) default) with
        | .error e => (info, .error e)
        | .ok [] => (info, .error (.noImpl (info.args.getD (i0 + fpre.length) default)))
        | .ok [u] => resolveSlots reg fpost (i0 + fpre.length + 1)
            { info with args := info.args.set (i0 + fpre.length) u }
        | .ok us => (info, .error (.multiImpl (info.args.getD (i0 + fpre.length) default) us)) := by
  induction fpre generalizing i0 with
  | nil =>
    show resolveSlots reg (true :: fpost) i0 info = _
    rw [resolveSlots]
    simp
  | cons b fpre ih =>
    have hb := hpre b (by simp)
    subst hb
    show resolveSlots reg (false :: (fpre ++ true :: fpost)) i0 info = _
    rw [resolveSlots]
    simp only [if_neg (by simp : ¬ (false = true))]
    rw [ih (i0 + 1) (fun b2 hb2 => hpre b2 (by simp [hb2]))]
    have hidx : i0 + 1 + fpre.length = i0 + (false :: fpre).length := by
      simp only [List.length_cons]
      omega
    rw [hidx]

theorem resolveInterfacesGo_append_nofr (reg : List Ty) (pre ids2 : List Nat)
    (store : List CtorInfo)
    (h : ∀ j ∈ pre, ∀ b ∈ (store.getD j default).needsRes, b = false) :
    resolveInterfacesGo reg (pre ++ ids2) store = resolveInterfacesGo reg ids2 store := by
  induction pre with
  | nil => rfl
  | cons j pre ih =>
    rw [List.cons_append, resolveInterfacesGo]
    rw [resolveSlots_nofr reg _ 0 _ (h j (by simp))]
    simp only [list_set_getD_self]
    exact ih (fun j2 hj2 => h j2 (by simp [hj2]))

/-- The store after substituting the unique implementation into one recorded
input slot of one constructor record. -/
def substStore (c : Container) (id : Nat) (i : Nat) (u : Ty) : List CtorInfo :=
  c.store.set id { getCtor c id with args := (getCtor c id).args.set i u }

/-- Behaviour of the full capability-resolution pass when exactly one
constructor input in the whole container is marked for resolution: zero
candidates fail with `noImpl`, two or more fail with `multiImpl` listing them,
and a unique candidate is substituted in place into the recorded slot. -/
theorem resolveInterfaces_single_flag (c : Container) (pre post : List Nat) (id : Nat)
    (fpre fpost : List Bool)
    (hctors : c.constructors = pre ++ id :: post)
    (hpre : ∀ j ∈ pre, ∀ b ∈ (getCtor c j).needsRes, b = false)
    (hflags : (getCtor c id).needsRes = fpre ++ true :: fpost)
    (hfpre : ∀ b ∈ fpre, b = false)
    (hfpost : ∀ b ∈ fpost, b = false)
    (hpost : ∀ j ∈ post, ∀ b ∈ (getCtor c j).needsRes, b = false)
    (hid : id < c.store.length) :
    (findImpls c.typeRegistry ((getCtor c id).args.getD fpre.length default) = .ok [] →
      resolveInterfaces c
        = (c, .error (.noImpl ((getCtor c id).args.getD fpre.length default))))
    ∧ (∀ e, findImpls c.typeRegistry ((getCtor c id).args.getD fpre.length default)
          = .error e → resolveInterfaces c = (c, .error e))
    ∧ (∀ u1 u2 us, findImpls c.typeRegistry ((getCtor c id).args.getD fpre.length default)
          = .ok (u1 :: u2 :: us) →
        resolveInterfaces c
          = (c, .error (.multiImpl ((getCtor c id).args.getD fpre.length default)
              (u1 :: u2 :: us))))
    ∧ (∀ u, findImpls c.typeRegistry ((getCtor c id).args.getD fpre.length default)
          = .ok [u] →
        resolveInterfaces c
          = ({ c with store := substStore c id fpre.length u }, .ok ())) := by
  have hgo : resolveInterfacesGo c.typeRegistry c.constructors c.store
      = resolveInterfacesGo c.typeRegistry (id :: post) c.store := by
    rw [hctors]
    exact resolveInterfacesGo_append_nofr _ _ _ _ hpre
  have hshape := resolveSlots_shape c.typeRegistry fpre fpost 0 (getCtor c id) hfpre
  simp only [Nat.zero_add] at hshape
  refine ⟨?_, ?_, ?_, ?_⟩
  · intro hfi
    rw [hfi] at hshape
    unfold resolveInterfaces
    rw [hgo, resolveInterfacesGo]
    show _ = ((c, Except.error (Err.noImpl ((getCtor c id).args.getD fpre.length default))) :
      Container × Except Err Unit)
    rw [show (c.store.getD id default) = getCtor c id from rfl, hflags, hshape]
    have hsetself : c.store.set id (getCtor c id) = c.store := list_set_getD_self c.store id
    rw [hsetself]
  · intro e hfi
    rw [hfi] at hshape
    unfold resolveInterfaces
    rw [hgo, resolveInterfacesGo]
    rw [show (c.store.getD id default) = getCtor c id from rfl, hflags, hshape]
    have hsetself : c.store.set id (getCtor c id) = c.store := list_set_getD_self c.store id
    rw [hsetself]
  · intro u1 u2 us hfi
    rw [hfi] at hshape
    unfold resolveInterfaces
    rw [hgo, resolveInterfacesGo]
    rw [show (c.store.getD id default) = getCtor c id from rfl, hflags, hshape]
    have hsetself : c.store.set id (getCtor c id) = c.store := list_set_getD_self c.store id
    rw [hsetself]
  · intro u hfi
    rw [hfi] at hshape
    have hshape2 : resolveSlots c.typeRegistry (fpre ++ true :: fpost) 0 (getCtor c id)
        = resolveSlots c.typeRegistry fpost (fpre.length + 1)
          { getCtor c id with args := (getCtor c id).args.set fpre.length u } := hshape
    rw [resolveSlots_nofr _ _ _ _ hfpost] at hshape2
    have hpost2 : ∀ j ∈ post, ∀ b ∈ ((substStore c id fpre.length u).getD j default).needsRes,
        b = false := by
      intro j hj b hb
      unfold substStore at hb
      by_cases hji : j = id
      · subst hji
        rw [getD_set_self _ _ _ hid] at hb
        have : (true : Bool) = false := by
          apply hpost j hj
          rw [hflags]
          simp
        simp at this
      · rw [getD_set_ne _ _ _ _ (fun he => hji he.symm)] at hb
        exact hpost j hj b hb
    have h1 : resolveInterfacesGo c.typeRegistry c.constructors c.store
        = (substStore c id fpre.length u, .ok ()) := by
      rw [hgo, resolveInterfacesGo]
      rw [show (c.store.getD id default) = getCtor c id from rfl, hflags, hshape2]
      show resolveInterfacesGo c.typeRegistry post (substStore c id fpre.length u)
          = (substStore c id fpre.length u, Except.ok ())
      exact resolveInterfacesGo_nofr _ _ _ hpost2
    unfold resolveInterfaces
    rw [h1]

/-! ### Registration overwrite -/

/-- The constructor record built by `Provide` for a function with the given
analyzed signature. -/
def mkInfo (f : GoFunc) (sig : FnSig) : CtorInfo :=
  { args := sig.args, ret := sig.returnType, hasErrOut := f.rets.length == 2,
    needsRes := sig.args.map Ty.isInterface, fails := f.fails }

theorem provide_shape (c : Container) (f : GoFunc) (sig : FnSig)
    (ha : analyzeFunction f = .ok sig) :
    provide c f = .ok { c with
      store := c.store ++ [mkInfo f sig],
      constructors := c.constructors ++ [c.store.length],
      typesCtors := insertA c.typesCtors sig.returnType c.store.length,
      typeRegistry := c.typeRegistry ++ [sig.returnType] } := by
  simp [provide, ha, mkInfo]

theorem mustProvide_shape (c : Container) (f : GoFunc) (sig : FnSig)
    (ha : analyzeFunction f = .ok sig) :
    mustProvide c f = { c with
      store := c.store ++ [mkInfo f sig],
      constructors := c.constructors ++ [c.store.length],
      typesCtors := insertA c.typesCtors sig.returnType c.store.length,
      typeRegistry := c.typeRegistry ++ [sig.returnType] } := by
  unfold mustProvide
  rw [provide_shape c f sig ha]

/-- Registering two producers with the same output type: the `typesCtors` map
keeps only the second record — instantiation and the rebuilt graph read only
this map — while the first record remains in the `constructors` list (which
feeds dependency validation and interface resolution) and its output type is
duplicated in the type registry scanned by capability resolution. -/
theorem provide_overwrite_residue (c : Container) (f1 f2 : GoFunc) (s1 s2 : FnSig)
    (ha1 : analyzeFunction f1 = .ok s1) (ha2 : analyzeFunction f2 = .ok s2)
    (hret : s1.returnType = s2.returnType) :
    lookupA (mustProvide (mustProvide c f1) f2).typesCtors s2.returnType
        = some (c.store.length + 1)
    ∧ getCtor (mustProvide (mustProvide c f1) f2) (c.store.length + 1) = mkInfo f2 s2
    ∧ argsAt (mustProvide (mustProvide c f1) f2) s2.returnType = s2.args
    ∧ c.store.length ∈ (mustProvide (mustProvide c f1) f2).constructors
    ∧ getCtor (mustProvide (mustProvide c f1) f2) c.store.length = mkInfo f1 s1
    ∧ (∀ d ∈ s1.args, d ∈ requiredTypes (mustProvide (mustProvide c f1) f2))
    ∧ cnt s2.returnType (mustProvide (mustProvide c f1) f2).typeRegistry
        = cnt s2.returnType c.typeRegistry + 2 := by
  have hc1 := mustProvide_shape c f1 s1 ha1
  have hc2 : mustProvide (mustProvide c f1) f2 = { c with
      store := (c.store ++ [mkInfo f1 s1]) ++ [mkInfo f2 s2],
      constructors := (c.constructors ++ [c.store.length])
        ++ [(c.store ++ [mkInfo f1 s1]).length],
      typesCtors := insertA (insertA c.typesCtors s1.returnType c.store.length)
        s2.returnType (c.store ++ [mkInfo f1 s1]).length,
      typeRegistry := (c.typeRegistry ++ [s1.returnType]) ++ [s2.returnType] } := by
    rw [mustProvide_shape (mustProvide c f1) f2 s2 ha2, hc1]
  have hlen1 : (c.store ++ [mkInfo f1 s1]).length = c.store.length + 1 := by simp
  have hlk : lookupA (mustProvide (mustProvide c f1) f2).typesCtors s2.returnType
      = some (c.store.length + 1) := by
    rw [hc2]
    show lookupA (insertA _ s2.returnType (c.store ++ [mkInfo f1 s1]).length) s2.returnType
      = _
    rw [lookupA_insert_self, hlen1]
  have hget2 : getCtor (mustProvide (mustProvide c f1) f2) (c.store.length + 1)
      = mkInfo f2 s2 := by
    rw [hc2]
    show ((c.store ++ [mkInfo f1 s1]) ++ [mkInfo f2 s2]).getD (c.store.length + 1) default
      = mkInfo f2 s2
    rw [← hlen1]
    exact getD_append_self _ _
  have hget1 : getCtor (mustProvide (mustProvide c f1) f2) c.store.length
      = mkInfo f1 s1 := by
    rw [hc2]
    show ((c.store ++ [mkInfo f1 s1]) ++ [mkInfo f2 s2]).getD c.store.length default
      = mkInfo f1 s1
    rw [getD_append_left _ _ _ (by simp)]
    exact getD_append_self _ _
  refine ⟨hlk, hget2, ?_, ?_, hget1, ?_, ?_⟩
  · unfold argsAt
    rw [hlk]
    show (getCtor (mustProvide (mustProvide c f1) f2) (c.store.length + 1)).args = s2.args
    rw [hget2]
    rfl
  · rw [hc2]
    simp
  · intro d hd
    rw [mem_requiredTypes]
    refine ⟨c.store.length, ?_, ?_⟩
    · rw [hc2]
      simp
    · rw [hget1]
      exact hd
  · rw [hc2]
    show cnt s2.returnType ((c.typeRegistry ++ [s1.returnType]) ++ [s2.returnType])
      = cnt s2.returnType c.typeRegistry + 2
    rw [cnt_append, cnt_append, cnt_singleton, cnt_singleton, hret]
    simp

theorem getD_map_pair (out : List Ty) (f : Ty → Nat) (j : Nat) (h : j < out.length) :
    (out.map (fun t => (f t, t))).getD j default
      = (f (out.getD j default), out.getD j default) := by
  induction out generalizing j with
  | nil => simp at h
  | cons a out ih =>
    cases j with
    | zero => rfl
    | succ j =>
      simp only [List.length_cons] at h
      exact ih j (by omega)

theorem getD_mem (l : List Ty) (j : Nat) (h : j < l.length) : l.getD j default ∈ l := by
  rw [getD_eq_get l j h]
  exact List.get_mem l j h

theorem argsAt_eq_getCtor (c : Container) (t : Ty)
    (h : (lookupA c.typesCtors t).isSome) :
    (getCtor c (idAt c t)).args = argsAt c t := by
  unfold argsAt idAt
  cases hl : lookupA c.typesCtors t with
  | none =>
    rw [hl] at h
    simp at h
  | some id => simp

/-! ### Concrete scenarios (each built through `Provide`, as a Go caller would) -/

def tyA : Ty := .ptr (.strct "A" [] [])

def tyB : Ty := .ptr (.strct "B" [] [])

def tyC : Ty := .ptr (.strct "C" [] [])

def tyX : Ty := .ptr (.strct "X" [] [])

def errorTy : Ty := .iface "error" ["Error"]

def fnA : GoFunc := ⟨[], [tyA], false⟩

def fnB : GoFunc := ⟨[tyA], [tyB], false⟩

def fnC : GoFunc := ⟨[tyB], [tyC], false⟩

/-- `A ← B ← C` chain. -/
def chainC : Container := mustProvide (mustProvide (mustProvide newContainer fnA) fnB) fnC

/-- A single dependency-free producer. -/
def singleC : Container := mustProvide newContainer fnA

def tyIStorage : Ty := .iface "IStorage" ["Save"]

def tyFileStorage : Ty := .ptr (.strct "FileStorage" [] ["Save"])

def tyProcessor : Ty := .ptr (.strct "DataProcessor" [] [])

def fnFileStorage : GoFunc := ⟨[], [tyFileStorage], false⟩

def fnProcessor : GoFunc := ⟨[tyIStorage], [tyProcessor], false⟩

/-- The interface scenario: `DataProcessor` requires the `IStorage` contract,
satisfied uniquely by `*FileStorage`. -/
def ifaceC : Container := mustProvide (mustProvide newContainer fnFileStorage) fnProcessor

/-- The interface container after one successful capability-resolution pass:
every recorded input is now a concrete type. -/
def ifaceResolved : Container := (resolveInterfaces ifaceC).1

def fnB1 : GoFunc := ⟨[tyX], [tyB], false⟩

def fnB2 : GoFunc := ⟨[], [tyB], false⟩

/-- Two registrations for `*B`: the first requires unregistered `*X`, the
second has no inputs. -/
def dupC : Container := mustProvide (mustProvide newContainer fnB1) fnB2

/-- Only the second of the two `*B` producers. -/
def lastOnlyC : Container := mustProvide newContainer fnB2

def fnAc : GoFunc := ⟨[tyC], [tyA], false⟩

def fnBa : GoFunc := ⟨[tyA], [tyB], false⟩

def fnCb : GoFunc := ⟨[tyB], [tyC], false⟩

/-- The spec's cycle example: `A` requires `C`, `B` requires `A`, `C`
requires `B`. -/
def cycleC : Container := mustProvide (mustProvide (mustProvide newContainer fnAc) fnBa) fnCb

/-- `B` requires unregistered `*A`. -/
def missC : Container := mustProvide newContainer fnB

def fnBfail : GoFunc := ⟨[tyA], [tyB, errorTy], true⟩

/-- `A` succeeds, `B` (depending on `A`) returns a non-nil error. -/
def failC : Container := mustProvide (mustProvide newContainer fnA) fnBfail

def fnFan : GoFunc := ⟨[tyB, tyB], [tyC], false⟩

/-- Fan-in with a duplicated input: `C` declares `*B` twice. -/
def fanC : Container := mustProvide (mustProvide (mustProvide newContainer fnA) fnB) fnFan

def fnD : GoFunc := ⟨[], [tyB], false⟩

/-- Two unrelated dependency-free producers. -/
def pairC : Container := mustProvide (mustProvide newContainer fnA) fnD

/-! ### Claims -/

/-- C1 (counterexample).  The claim says a producer runs at most once per
container lifetime and a cache entry is never replaced.  On a container with
one dependency-free producer for `*A`, the first `Resolve` stores the instance
tagged 0, and a second `Resolve` invokes the producer again (two entries in the
lifetime call log) and replaces the cached entry with a different instance
(tag 1): the current `Resolve` loop never consults the cache before invoking. -/
theorem resolve_twice_reinvokes_and_replaces :
    (resolve singleC tyA).1.callLog.length = 1
    ∧ (resolve (resolve singleC tyA).1 tyA).1.callLog.length = 2
    ∧ lookupA (resolve singleC tyA).1.instances tyA = some ⟨tyA, 0⟩
    ∧ lookupA (resolve (resolve singleC tyA).1 tyA).1.instances tyA = some ⟨tyA, 1⟩
    ∧ (⟨tyA, 1⟩ : Val) ≠ ⟨tyA, 0⟩ := by
  decide

/-- C1 (amended).  Each producer is invoked at most once per `Resolve` call —
not per container lifetime: a successful call appends at most one log entry
per produced type, and it stores for every registered type a freshly built
instance (allocation tag at least the pre-call counter), different from any
instance cached before the call. -/
theorem resolve_invokes_once_per_call (c : Container) (tgt : Ty) (hWF : WF c)
    (hok : ((resolve c tgt).2).isOk = true) :
    ∃ new, (resolve c tgt).1.callLog = c.callLog ++ new
      ∧ (∀ t : Ty, (new.filter (fun e => e.2 = t)).length ≤ 1)
      ∧ ∀ t ∈ c.typesCtors.map Prod.fst, ∃ v,
          lookupA (resolve c tgt).1.instances t = some v
          ∧ c.counter ≤ v.tag
          ∧ ∀ w, lookupA c.instances t = some w → w ≠ v := by
  obtain ⟨out, ho1, ho2, hlog, _, hstored, _, _⟩ := resolve_ok_anatomy c tgt hWF hok
  refine ⟨_, hlog, ?_, ?_⟩
  · intro t
    rw [log_filter_cnt]
    exact cnt_le_one_of_nodup ho1
  · intro t ht
    rcases hstored t ((ho2 t).2 ht) with ⟨v, hv, htag⟩
    refine ⟨v, hv, htag, ?_⟩
    intro w hw hcontra
    obtain ⟨_, _, _, hw4⟩ := hWF
    have hwtag := hw4 (t, w) (lookupA_mem hw)
    rw [hcontra] at hwtag
    simp at hwtag
    omega

/-- C1 (witness). -/
theorem resolve_invokes_once_per_call_witness :
    ∃ new, (resolve singleC tyA).1.callLog = singleC.callLog ++ new
      ∧ (∀ t : Ty, (new.filter (fun e => e.2 = t)).length ≤ 1)
      ∧ ∀ t ∈ singleC.typesCtors.map Prod.fst, ∃ v,
          lookupA (resolve singleC tyA).1.instances t = some v
          ∧ singleC.counter ≤ v.tag
          ∧ ∀ w, lookupA singleC.instances t = some w → w ≠ v :=
  resolve_invokes_once_per_call singleC tyA (by decide) (by decide)

/-- C2 (counterexample).  The claim says the capability-resolution pass is
idempotent: once every interface-typed input has been replaced by a concrete
type, re-running it is a no-op that reports no error.  After one successful
pass over the `IStorage` scenario every recorded input is concrete, yet
re-running the pass does not leave the container unchanged with an `ok`
result: the stale `dependNeedsResolution` mark makes it call
`Implements` with the concrete type `*FileStorage` as the contract, which
panics in Go (modelled as the `panicNonInterface` error). -/
theorem rerun_interface_pass_panics :
    (resolveInterfaces ifaceC).2 = .ok ()
    ∧ (∀ id ∈ ifaceResolved.constructors,
        ∀ a ∈ (getCtor ifaceResolved id).args, a.isInterface = false)
    ∧ (resolveInterfaces ifaceResolved).2 = .error (.panicNonInterface tyFileStorage)
    ∧ resolveInterfaces ifaceResolved ≠ (ifaceResolved, .ok ()) := by
  decide

/-- C2 (amended).  The re-run pass is a no-op reporting no error exactly for
containers in which no constructor input is (still) marked as needing
resolution — in particular whenever no registered constructor ever declared an
interface-typed input.  (When a mark is still set — and the code never clears
marks — a re-run reaches `Implements` with the already-substituted concrete
type and panics, as the counterexample shows.) -/
theorem interface_pass_rerun_noop (c : Container)
    (h : ∀ id ∈ c.constructors, ∀ b ∈ (getCtor c id).needsRes, b = false) :
    resolveInterfaces c = (c, .ok ()) :=
  resolveInterfaces_noflags c h

/-- C2 (witness). -/
theorem interface_pass_rerun_noop_witness :
    resolveInterfaces chainC = (chainC, .ok ()) :=
  interface_pass_rerun_noop chainC (by decide)

/-- C3 (counterexample).  The claim says that after re-registration for the
same output type the container behaves as if only the last registration
existed, with no residual effect.  Register `f1 : *X → *B` and then
`f2 : () → *B`: with only `f2` present, resolving `*B` succeeds, but on the
container holding both, resolution fails with a missing-dependency error for
`*X` — the overwritten registration's input list still participates in
dependency validation. -/
theorem overwrite_residue_counterexample :
    (resolve lastOnlyC tyB).2 = .ok ⟨tyB, 0⟩
    ∧ (resolve dupC tyB).2 = .error (.missingDep tyX) := by
  decide

/-- C3 (amended).  The last registration for an output type wins exactly where
the container is keyed by type: `typesCtors` maps the type to the second
record, so instantiation and the rebuilt dependency graph use only the last
producer.  But the overwritten record leaves residues: it remains on the
`constructors` list, so its declared inputs still feed dependency validation
(and interface resolution), and its output type stays duplicated in the type
registry scanned by capability resolution. -/
theorem last_registration_wins_with_residue (c : Container) (f1 f2 : GoFunc)
    (s1 s2 : FnSig)
    (ha1 : analyzeFunction f1 = .ok s1) (ha2 : analyzeFunction f2 = .ok s2)
    (hret : s1.returnType = s2.returnType) :
    lookupA (mustProvide (mustProvide c f1) f2).typesCtors s2.returnType
        = some (c.store.length + 1)
    ∧ getCtor (mustProvide (mustProvide c f1) f2) (c.store.length + 1) = mkInfo f2 s2
    ∧ argsAt (mustProvide (mustProvide c f1) f2) s2.returnType = s2.args
    ∧ c.store.length ∈ (mustProvide (mustProvide c f1) f2).constructors
    ∧ getCtor (mustProvide (mustProvide c f1) f2) c.store.length = mkInfo f1 s1
    ∧ (∀ d ∈ s1.args, d ∈ requiredTypes (mustProvide (mustProvide c f1) f2))
    ∧ cnt s2.returnType (mustProvide (mustProvide c f1) f2).typeRegistry
        = cnt s2.returnType c.typeRegistry + 2 :=
  provide_overwrite_residue c f1 f2 s1 s2 ha1 ha2 hret

/-- C3 (witness). -/
theorem last_registration_wins_with_residue_witness :
    lookupA (mustProvide (mustProvide newContainer fnB1) fnB2).typesCtors tyB
        = some (newContainer.store.length + 1)
    ∧ getCtor (mustProvide (mustProvide newContainer fnB1) fnB2)
        (newContainer.store.length + 1) = mkInfo fnB2 ⟨[], tyB⟩
    ∧ argsAt (mustProvide (mustProvide newContainer fnB1) fnB2) tyB = []
    ∧ newContainer.store.length ∈ (mustProvide (mustProvide newContainer fnB1) fnB2).constructors
    ∧ getCtor (mustProvide (mustProvide newContainer fnB1) fnB2)
        newContainer.store.length = mkInfo fnB1 ⟨[tyX], tyB⟩
    ∧ (∀ d ∈ [tyX], d ∈ requiredTypes (mustProvide (mustProvide newContainer fnB1) fnB2))
    ∧ cnt tyB (mustProvide (mustProvide newContainer fnB1) fnB2).typeRegistry
        = cnt tyB newContainer.typeRegistry + 2 :=
  last_registration_wins_with_residue newContainer fnB1 fnB2 ⟨[tyX], tyB⟩ ⟨[], tyB⟩
    (by decide) (by decide) (by decide)

/-- C4.  On a registry whose rebuilt dependency graph contains a cycle among
registered types, once the interface pass and validation go through, `Resolve`
fails with the circular-dependency error: Kahn's queue drains with strictly
fewer processed types than types with registered constructors, and the error —
never a silent partial order — is propagated to the caller. -/
theorem resolve_cycle_error (c : Container) (tgt : Ty) (hWF : WF c)
    (hri : (resolveInterfaces c).2 = .ok ())
    (hv : validateDependencies (rebuildGraph (resolveInterfaces c).1) = .ok ())
    (cyc : List Ty)
    (hcyc : CycleIn (rebuildGraph (resolveInterfaces c).1).graph cyc) :
    ∃ p q, resolve c tgt
        = (rebuildGraph (resolveInterfaces c).1, .error (.circular p q))
      ∧ p < q := by
  obtain ⟨hw1, hw2, _, _⟩ := hWF
  rcases topologicalSort_cycle_error (rebuildGraph (resolveInterfaces c).1) hw1 hw2
      (rebuildGraph_depKeys _) (fun s t => depdOf_rebuildGraph_cnt _ s t hw1) cyc hcyc
    with ⟨p, q, hsort, hlt⟩
  exact ⟨p, q, resolve_eq_of_sort_error c tgt _ hri hv hsort, hlt⟩

/-- C4 (witness): the spec's `A → C → B → A` example. -/
theorem resolve_cycle_error_witness :
    ∃ p q, resolve cycleC tyA
        = (rebuildGraph (resolveInterfaces cycleC).1, .error (.circular p q))
      ∧ p < q :=
  resolve_cycle_error cycleC tyA (by decide) (by decide) (by decide)
    [tyA, tyC, tyB] (by decide)

/-- C5.  When, after a successful interface pass, some constructor input type
has no registered producer, `Resolve` fails with a `missingDep` error naming a
missing required type: validation runs before the topological sort, so the
failure is reported as a missing producer rather than as a cycle or
result-size mismatch. -/
theorem resolve_missing_dep_error (c : Container) (tgt : Ty)
    (hri : (resolveInterfaces c).2 = .ok ())
    (id : Nat) (d : Ty)
    (hid : id ∈ (resolveInterfaces c).1.constructors)
    (hd : d ∈ (getCtor (resolveInterfaces c).1 id).args)
    (hmiss : lookupA (resolveInterfaces c).1.typesCtors d = none) :
    ∃ m, resolve c tgt = (rebuildGraph (resolveInterfaces c).1, .error (.missingDep m))
      ∧ m ∈ requiredTypes (rebuildGraph (resolveInterfaces c).1)
      ∧ lookupA (rebuildGraph (resolveInterfaces c).1).typesCtors m = none := by
  have hreq : d ∈ requiredTypes (rebuildGraph (resolveInterfaces c).1) := by
    rw [mem_requiredTypes]
    exact ⟨id, hid, hd⟩
  rcases validateDependencies_error_of_missing (rebuildGraph (resolveInterfaces c).1) d
      hreq hmiss with ⟨m, hverr, hm1, hm2⟩
  exact ⟨m, resolve_eq_of_validate_error c tgt _ hri hverr, hm1, hm2⟩

/-- C5 (witness): `B` requires unregistered `*A`. -/
theorem resolve_missing_dep_error_witness :
    ∃ m, resolve missC tyB
        = (rebuildGraph (resolveInterfaces missC).1, .error (.missingDep m))
      ∧ m ∈ requiredTypes (rebuildGraph (resolveInterfaces missC).1)
      ∧ lookupA (rebuildGraph (resolveInterfaces missC).1).typesCtors m = none :=
  resolve_missing_dep_error missC tyB (by decide) 0 tyA (by decide) (by decide) (by decide)

/-- C6.  For a constructor input declared as an interface (the one marked slot
in the container): zero registered candidates make `Resolve` fail with the
no-implementation error, two or more candidates make it fail with the
ambiguity error listing all of them, and a unique candidate is substituted in
place into that constructor's recorded input slot.  A candidate is a
registered output type that implements the contract directly or via a pointer
to it (`findImpls`). -/
theorem capability_resolution_trichotomy (c : Container) (tgt : Ty)
    (pre post : List Nat) (id : Nat) (fpre fpost : List Bool)
    (hctors : c.constructors = pre ++ id :: post)
    (hpre : ∀ j ∈ pre, ∀ b ∈ (getCtor c j).needsRes, b = false)
    (hflags : (getCtor c id).needsRes = fpre ++ true :: fpost)
    (hfpre : ∀ b ∈ fpre, b = false)
    (hfpost : ∀ b ∈ fpost, b = false)
    (hpost : ∀ j ∈ post, ∀ b ∈ (getCtor c j).needsRes, b = false)
    (hid : id < c.store.length) :
    (findImpls c.typeRegistry ((getCtor c id).args.getD fpre.length default) = .ok [] →
      resolve c tgt
        = (c, .error (.noImpl ((getCtor c id).args.getD fpre.length default))))
    ∧ (∀ u1 u2 us, findImpls c.typeRegistry ((getCtor c id).args.getD fpre.length default)
          = .ok (u1 :: u2 :: us) →
        resolve c tgt
          = (c, .error (.multiImpl ((getCtor c id).args.getD fpre.length default)
              (u1 :: u2 :: us))))
    ∧ (∀ u, findImpls c.typeRegistry ((getCtor c id).args.getD fpre.length default)
          = .ok [u] →
        resolveInterfaces c = ({ c with store := substStore c id fpre.length u }, .ok ())) := by
  obtain ⟨hA, _, hC, hD⟩ := resolveInterfaces_single_flag c pre post id fpre fpost
    hctors hpre hflags hfpre hfpost hpost hid
  refine ⟨?_, ?_, hD⟩
  · intro hfi
    have h1 := hA hfi
    have h2 : (resolveInterfaces c).2
        = .error (.noImpl ((getCtor c id).args.getD fpre.length default)) := by rw [h1]
    rw [resolve_eq_of_ri_error c tgt _ h2]
    rw [show (resolveInterfaces c).1 = c from by rw [h1]]
  · intro u1 u2 us hfi
    have h1 := hC u1 u2 us hfi
    have h2 : (resolveInterfaces c).2
        = .error (.multiImpl ((getCtor c id).args.getD fpre.length default)
            (u1 :: u2 :: us)) := by rw [h1]
    rw [resolve_eq_of_ri_error c tgt _ h2]
    rw [show (resolveInterfaces c).1 = c from by rw [h1]]

/-- C6 (witness): `DataProcessor` requires `IStorage`; `*FileStorage` is the
unique implementation and is substituted into the recorded slot. -/
theorem capability_resolution_trichotomy_witness :
    resolveInterfaces ifaceC
      = ({ ifaceC with store := substStore ifaceC 1 0 tyFileStorage }, .ok ()) :=
  (capability_resolution_trichotomy ifaceC tyProcessor [0] [] 1 [] []
    (by decide) (by decide) (by decide) (by decide) (by decide) (by decide)
    (by decide)).2.2 tyFileStorage (by decide)

/-- C7.  During any successful `Resolve`, the invocation order respects every
dependency edge: for each producer invocation in the call log, every
(post-capability-resolution) input type of the invoked constructor was
produced by a strictly earlier invocation of the same call — the dependency's
producer completes before the consumer's producer runs, so the gathered inputs
are present in the instance cache. -/
theorem resolve_respects_dependency_order (c : Container) (tgt : Ty) (hWF : WF c)
    (hok : ((resolve c tgt).2).isOk = true) :
    ∃ new : List (Nat × Ty), (resolve c tgt).1.callLog = c.callLog ++ new
      ∧ ∀ j, j < new.length →
          ∀ d ∈ (getCtor (resolve c tgt).1 (new.getD j default).1).args,
            ∃ k, k < j ∧ (new.getD k default).2 = d := by
  obtain ⟨out, _, ho2, hlog, hresp, _, _, hstore⟩ := resolve_ok_anatomy c tgt hWF hok
  refine ⟨_, hlog, ?_⟩
  intro j hj d hd
  rw [List.length_map] at hj
  rw [getD_map_pair out _ j hj] at hd
  have hsome : (lookupA (rebuildGraph (resolveInterfaces c).1).typesCtors
      (out.getD j default)).isSome := by
    rw [lookupA_isSome_iff]
    exact (ho2 (out.getD j default)).1 (getD_mem out j hj)
  have hgc : getCtor (resolve c tgt).1
        (idAt (rebuildGraph (resolveInterfaces c).1) (out.getD j default))
      = getCtor (rebuildGraph (resolveInterfaces c).1)
        (idAt (rebuildGraph (resolveInterfaces c).1) (out.getD j default)) := by
    unfold getCtor
    rw [hstore]
  rw [hgc, argsAt_eq_getCtor _ _ hsome] at hd
  rcases mem_take_exists_getD out j d (hresp j hj d hd) with ⟨k, hk1, hk2, hk3⟩
  refine ⟨k, hk1, ?_⟩
  rw [getD_map_pair out _ k hk2, hk3]

/-- C7 (witness): the `A ← B ← C` chain. -/
theorem resolve_respects_dependency_order_witness :
    ∃ new : List (Nat × Ty), (resolve chainC tyC).1.callLog = chainC.callLog ++ new
      ∧ ∀ j, j < new.length →
          ∀ d ∈ (getCtor (resolve chainC tyC).1 (new.getD j default).1).args,
            ∃ k, k < j ∧ (new.getD k default).2 = d :=
  resolve_respects_dependency_order chainC tyC (by decide) (by decide)

/-- C8.  A single successful `Resolve` invokes the producer of each registered
output type exactly once — fan-in, including a consumer declaring the same
input type twice, does not duplicate construction — and invokes nothing
else. -/
theorem resolve_each_producer_once (c : Container) (tgt : Ty) (hWF : WF c)
    (hok : ((resolve c tgt).2).isOk = true) :
    ∃ new, (resolve c tgt).1.callLog = c.callLog ++ new
      ∧ (∀ t ∈ c.typesCtors.map Prod.fst, (new.filter (fun e => e.2 = t)).length = 1)
      ∧ (∀ t : Ty, t ∉ c.typesCtors.map Prod.fst
          → (new.filter (fun e => e.2 = t)).length = 0) := by
  obtain ⟨out, ho1, ho2, hlog, _, _, _, _⟩ := resolve_ok_anatomy c tgt hWF hok
  refine ⟨_, hlog, ?_, ?_⟩
  · intro t ht
    rw [log_filter_cnt]
    exact cnt_eq_one_of_nodup_mem ho1 ((ho2 t).2 ht)
  · intro t ht
    rw [log_filter_cnt]
    exact cnt_eq_zero_of_not_mem (fun hmem => ht ((ho2 t).1 hmem))

/-- C8 (witness): fan-in with `C` declaring `*B` twice. -/
theorem resolve_each_producer_once_witness :
    ∃ new, (resolve fanC tyC).1.callLog = fanC.callLog ++ new
      ∧ (∀ t ∈ fanC.typesCtors.map Prod.fst, (new.filter (fun e => e.2 = t)).length = 1)
      ∧ (∀ t : Ty, t ∉ fanC.typesCtors.map Prod.fst
          → (new.filter (fun e => e.2 = t)).length = 0) :=
  resolve_each_producer_once fanC tyC (by decide) (by decide)

/-- C9.  When the first scheduled producer with a firing error result sits at
position `j` of the sorted order, `Resolve` aborts there: the producer's
failure is propagated to the caller, exactly the first `j + 1` scheduled
producers were invoked, every instance built before the failure stays in the
cache (freshly tagged), and no other cache entry is touched — no rollback. -/
theorem resolve_producer_failure_aborts (c : Container) (tgt : Ty) (hWF : WF c)
    (hri : (resolveInterfaces c).2 = .ok ())
    (hv : validateDependencies (rebuildGraph (resolveInterfaces c).1) = .ok ())
    (out : List Ty) (hs : topologicalSort (rebuildGraph (resolveInterfaces c).1) = .ok out)
    (j : Nat) (hj : j < out.length)
    (hpre : ∀ i, i < j →
      ctorFails (rebuildGraph (resolveInterfaces c).1) (out.getD i default) = false)
    (hfail : ctorFails (rebuildGraph (resolveInterfaces c).1) (out.getD j default) = true) :
    (resolve c tgt).2 = .error (.producerFailure (out.getD j default))
    ∧ (resolve c tgt).1.callLog = c.callLog
        ++ (out.take (j + 1)).map
            (fun t => (idAt (rebuildGraph (resolveInterfaces c).1) t, t))
    ∧ (∀ t ∈ out.take j, ∃ v,
        lookupA (resolve c tgt).1.instances t = some v ∧ c.counter ≤ v.tag)
    ∧ (∀ q, q ∉ out.take j →
        lookupA (resolve c tgt).1.instances q = lookupA c.instances q) := by
  obtain ⟨hw1, hw2, _, _⟩ := hWF
  obtain ⟨ho1, ho2, ho3⟩ := sorted_perm_of_keys (rebuildGraph (resolveInterfaces c).1)
    hw1 hw2 (rebuildGraph_depKeys _) (fun s t => depdOf_rebuildGraph_cnt _ s t hw1) out hs
  have hsome : ∀ t ∈ out,
      (lookupA (rebuildGraph (resolveInterfaces c).1).typesCtors t).isSome := by
    intro t ht
    rw [lookupA_isSome_iff]
    exact (ho2 t).1 ht
  have hdeps : ∀ i, i < out.length →
      ∀ d ∈ argsAt (rebuildGraph (resolveInterfaces c).1) (out.getD i default),
        d ∈ out.take i
        ∨ (lookupA (rebuildGraph (resolveInterfaces c).1).instances d).isSome := by
    intro i hi d hd
    rw [argsAt_rebuildGraph] at hd
    exact Or.inl (ho3 i hi d hd)
  obtain ⟨hf1, hf2, hf3, hf4⟩ := resolveList_fail out (rebuildGraph (resolveInterfaces c).1)
    j hj ho1 hsome hpre hfail hdeps
  have heq := resolve_eq_of_loop_error c tgt out (.producerFailure (out.getD j default))
    hri hv hs hf1
  rw [heq]
  exact ⟨rfl, hf2, hf4, hf3⟩

/-- C9 (witness): `A` succeeds, then `B` fails; `A`'s instance survives. -/
theorem resolve_producer_failure_aborts_witness :
    (resolve failC tyA).2 = .error (.producerFailure (([tyA, tyB].getD 1 default)))
    ∧ (resolve failC tyA).1.callLog = failC.callLog
        ++ (([tyA, tyB].take 2).map
            (fun t => (idAt (rebuildGraph (resolveInterfaces failC).1) t, t)))
    ∧ (∀ t ∈ [tyA, tyB].take 1, ∃ v,
        lookupA (resolve failC tyA).1.instances t = some v ∧ failC.counter ≤ v.tag)
    ∧ (∀ q, q ∉ [tyA, tyB].take 1 →
        lookupA (resolve failC tyA).1.instances q = lookupA failC.instances q) :=
  resolve_producer_failure_aborts failC tyA (by decide) (by decide) (by decide)
    [tyA, tyB] (by decide) 1 (by decide)
    (by intro i hi; interval_cases i; decide) (by decide)

/-- C10.  A successful `Resolve` instantiates every registered type, not only
the requested target and its transitive dependencies: afterwards the instance
cache holds a (freshly built) instance for every type with a registered
constructor.  (Consequently a failing producer the target does not depend on
still fails the whole call, as C9's machinery shows on the same schedule.) -/
theorem resolve_populates_all_registered (c : Container) (tgt : Ty) (hWF : WF c)
    (hok : ((resolve c tgt).2).isOk = true) :
    ∀ t ∈ c.typesCtors.map Prod.fst, ∃ v,
      lookupA (resolve c tgt).1.instances t = some v ∧ c.counter ≤ v.tag := by
  obtain ⟨out, _, ho2, _, _, hstored, _, _⟩ := resolve_ok_anatomy c tgt hWF hok
  exact fun t ht => hstored t ((ho2 t).2 ht)

/-- C10 (witness): resolving `*A` also instantiates the unrelated `*B`. -/
theorem resolve_populates_all_registered_witness :
    ∃ v, lookupA (resolve pairC tyA).1.instances tyB = some v ∧ pairC.counter ≤ v.tag :=
  resolve_populates_all_registered pairC tyA (by decide) (by decide) tyB (by decide)

end Compoapp
